import Mathlib

/-!
Shallow embedding of the collision / physics core of the `fleeting-glimpse`
repository: the math primitives (`Vector3`, `Matrix4`), the geometric
primitives (`Line`, `Triangle`, `Ray`, `Capsule`, `Bounds`), the bounding
volume hierarchy (`BVH`) and the entity physics integrator, translated from
`src/math/vector3.ts`, `src/math/matrix4.ts`, `src/collisions/collisions.ts`,
`src/collisions/bvh.ts` and `src/entity/entity.ts`.

JavaScript numbers are modelled as real numbers.  The `±Infinity` sentinels
used by the source (in `Bounds.fromPoints`, the slab test and the two
minimum-selection loops) have no real counterpart; they are modelled with
`Option ℝ` accumulators where `none` plays the role of the not-yet-updated
infinite sentinel, which produces the same results on every input (an
`Infinity` sentinel never survives a comparison against a finite candidate).
The one exception is `Bounds.fromPoints []`, whose JavaScript result is the
unrepresentable box `(∞, -∞)`; there the embedding returns the zero box, and
no theorem below depends on the numeric value of that degenerate box.
-/

noncomputable section

namespace FG

open Classical

/-- 3-component vector (`src/math/vector3.ts`). -/
structure Vector3 where
  x : ℝ
  y : ℝ
  z : ℝ

namespace Vector3

/-- `Vector3.zero`. -/
def zero : Vector3 := ⟨0, 0, 0⟩

/-- The static `Vector3.x` axis vector of the source (renamed: `x` is the field). -/
def xAxis : Vector3 := ⟨1, 0, 0⟩

/-- The static `Vector3.y` axis vector of the source. -/
def yAxis : Vector3 := ⟨0, 1, 0⟩

/-- The static `Vector3.z` axis vector of the source. -/
def zAxis : Vector3 := ⟨0, 0, 1⟩

/-- `Vector3.add`. -/
def add (a b : Vector3) : Vector3 := ⟨a.x + b.x, a.y + b.y, a.z + b.z⟩

/-- `Vector3.subtract`. -/
def subtract (a b : Vector3) : Vector3 := ⟨a.x - b.x, a.y - b.y, a.z - b.z⟩

/-- `Vector3.multiply` (by a scalar). -/
def multiply (a : Vector3) (scalar : ℝ) : Vector3 := ⟨a.x * scalar, a.y * scalar, a.z * scalar⟩

/-- `Vector3.divide` (by a scalar). -/
def divide (a : Vector3) (divisor : ℝ) : Vector3 := ⟨a.x / divisor, a.y / divisor, a.z / divisor⟩

/-- `Vector3.magnitude`: `Math.sqrt(x² + y² + z²)`. -/
def magnitude (a : Vector3) : ℝ := Real.sqrt (a.x ^ 2 + a.y ^ 2 + a.z ^ 2)

/-- `Vector3.unit`: the zero vector keeps unit vector zero. -/
def unit (a : Vector3) : Vector3 := if a.magnitude = 0 then zero else a.divide a.magnitude

/-- `Vector3.dot`. -/
def dot (a b : Vector3) : ℝ := a.x * b.x + a.y * b.y + a.z * b.z

/-- `Vector3.cross`. -/
def cross (a b : Vector3) : Vector3 :=
  ⟨a.y * b.z - a.z * b.y, a.z * b.x - a.x * b.z, a.x * b.y - a.y * b.x⟩

/-- `Vector3.getParallelComponent`. -/
def getParallelComponent (a vector : Vector3) : Vector3 :=
  vector.unit.multiply (vector.unit.dot a)

/-- `Vector3.getOrthogonalComponent`. -/
def getOrthogonalComponent (a vector : Vector3) : Vector3 :=
  a.subtract (a.getParallelComponent vector)

end Vector3

/-- `Util.clamp(n, min, max) = Math.max(Math.min(n, max), min)`. -/
def Util.clamp (n lo hi : ℝ) : ℝ := max (min n hi) lo

/-- A coordinate axis, standing for the `"x" | "y" | "z"` string literals of the source. -/
inductive Axis where
  | x
  | y
  | z

/-- Component access `v[axis]`. -/
def Vector3.comp (v : Vector3) : Axis → ℝ
  | Axis.x => v.x
  | Axis.y => v.y
  | Axis.z => v.z

/-- Line segment (`class Line`).  The reserved word `end` is renamed `endp`. -/
structure Line where
  start : Vector3
  endp : Vector3

namespace Line

/-- The derived `direction` field assigned in the constructor. -/
def direction (l : Line) : Vector3 := l.endp.subtract l.start

/-- `Line.closestPointTo`. -/
def closestPointTo (l : Line) (reference : Vector3) : Vector3 :=
  let t := (reference.subtract l.start).dot l.direction.unit
  let t := Util.clamp t 0 l.direction.magnitude
  l.start.add (l.direction.unit.multiply t)

/-- `Line.getPlaneIntersection`.  An omitted `infiniteRange` argument is `false`. -/
def getPlaneIntersection (l : Line) (planePoint planeNormal : Vector3)
    (infiniteRange : Bool) : Option Vector3 :=
  let normalDot := planeNormal.dot l.direction
  if normalDot = 0 then none
  else
    let t := planeNormal.dot (planePoint.subtract l.start) / normalDot
    if infiniteRange = false ∧ (t < 0 ∨ t > 1) then none
    else some (l.start.add (l.direction.multiply t))

end Line

/-- Axis-aligned box (`class Bounds`). -/
structure Bounds where
  min : Vector3
  max : Vector3

namespace Bounds

/-- Derived `dimensions` field. -/
def dimensions (b : Bounds) : Vector3 := b.max.subtract b.min

/-- Derived `center` field. -/
def center (b : Bounds) : Vector3 := (b.min.add b.max).divide 2

/-- The running-minimum update of the `fromPoints` loop; `none` is the
`Infinity` start sentinel, which any candidate beats. -/
def optMin (acc : Option ℝ) (v : ℝ) : Option ℝ :=
  match acc with
  | none => some v
  | some m => if v < m then some v else some m

/-- The running-maximum update of the `fromPoints` loop; `none` is the
`-Infinity` start sentinel. -/
def optMax (acc : Option ℝ) (v : ℝ) : Option ℝ :=
  match acc with
  | none => some v
  | some m => if v > m then some v else some m

/-- Per-axis minimum over a point list (the `minX`/`minY`/`minZ` accumulators). -/
def listMin (l : List ℝ) : ℝ := (l.foldl optMin none).getD 0

/-- Per-axis maximum over a point list (the `maxX`/`maxY`/`maxZ` accumulators). -/
def listMax (l : List ℝ) : ℝ := (l.foldl optMax none).getD 0

/-- `Bounds.fromPoints(points, radius)`: componentwise min/max inflated by `radius`.
On the empty list the JavaScript result is the `(∞, -∞)` box; this embedding
returns the zero box instead (see the header comment). -/
def fromPoints (points : List Vector3) (radius : ℝ) : Bounds :=
  ⟨⟨listMin (points.map Vector3.x) - radius,
    listMin (points.map Vector3.y) - radius,
    listMin (points.map Vector3.z) - radius⟩,
   ⟨listMax (points.map Vector3.x) + radius,
    listMax (points.map Vector3.y) + radius,
    listMax (points.map Vector3.z) + radius⟩⟩

/-- `Bounds.overlaps`: separated along some axis ⇒ `false`, else `true`. -/
def overlaps (b bounds : Bounds) : Bool :=
  if (b.min.x > bounds.max.x ∨ bounds.min.x > b.max.x) ∨
     (b.min.y > bounds.max.y ∨ bounds.min.y > b.max.y) ∨
     (b.min.z > bounds.max.z ∨ bounds.min.z > b.max.z) then false
  else true

end Bounds

/-- Triangle (`class Triangle`). -/
structure Triangle where
  v0 : Vector3
  v1 : Vector3
  v2 : Vector3

namespace Triangle

/-- Derived `centroid` field. -/
def centroid (t : Triangle) : Vector3 := ((t.v0.add t.v1).add t.v2).divide 3

/-- Derived `bounds` field. -/
def bounds (t : Triangle) : Bounds := Bounds.fromPoints [t.v0, t.v1, t.v2] 0

/-- Derived `edge1` field. -/
def edge1 (t : Triangle) : Vector3 := t.v1.subtract t.v0

/-- Derived `edge2` field. -/
def edge2 (t : Triangle) : Vector3 := t.v2.subtract t.v0

/-- Derived `edgeCross` field. -/
def edgeCross (t : Triangle) : Vector3 := t.edge1.cross t.edge2

/-- Derived `normal` field. -/
def normal (t : Triangle) : Vector3 := t.edgeCross.unit

/-- The `edges` array `[v0→v1, v1→v2, v2→v0]`. -/
def edges (t : Triangle) : List Line := [⟨t.v0, t.v1⟩, ⟨t.v1, t.v2⟩, ⟨t.v2, t.v0⟩]

/-- The containment / boundary-search part of `Triangle.closestPoint` (after the
optional occlusion early return).  The three-edge loop starting from
`closestDist = Infinity` is unrolled: the first comparison always succeeds. -/
def closestPointCore (t : Triangle) (reference surfacePoint : Vector3)
    (surfaceDist : ℝ) : Vector3 × Bool × ℝ :=
  let cross0 := (surfacePoint.subtract t.v0).cross (t.v1.subtract t.v0)
  let cross1 := (surfacePoint.subtract t.v1).cross (t.v2.subtract t.v1)
  let cross2 := (surfacePoint.subtract t.v2).cross (t.v0.subtract t.v2)
  if cross0.dot t.normal ≤ 0 ∧ cross1.dot t.normal ≤ 0 ∧ cross2.dot t.normal ≤ 0 then
    (surfacePoint, true, surfaceDist)
  else
    let p0 := (Line.mk t.v0 t.v1).closestPointTo reference
    let d0 := (reference.subtract p0).magnitude
    let p1 := (Line.mk t.v1 t.v2).closestPointTo reference
    let d1 := (reference.subtract p1).magnitude
    let p2 := (Line.mk t.v2 t.v0).closestPointTo reference
    let d2 := (reference.subtract p2).magnitude
    let best1 := if d1 < d0 then (p1, d1) else (p0, d0)
    let best2 := if d2 < best1.2 then (p2, d2) else best1
    (best2.1, false, best2.2)

/-- `Triangle.closestPoint(reference, onPlane, occludeDist?)`. -/
def closestPoint (t : Triangle) (reference : Vector3) (onPlane : Bool)
    (occludeDist : Option ℝ) : Vector3 × Bool × ℝ :=
  let surfaceDist : ℝ := if onPlane then 0 else (reference.subtract t.v0).dot t.normal
  let surfacePoint : Vector3 :=
    if onPlane then reference else reference.subtract (t.normal.multiply surfaceDist)
  match occludeDist with
  | some d =>
      if surfaceDist > d then (Vector3.zero, false, surfaceDist)
      else t.closestPointCore reference surfacePoint surfaceDist
  | none => t.closestPointCore reference surfacePoint surfaceDist

end Triangle

/-- Ray (`class Ray`). -/
structure Ray where
  origin : Vector3
  direction : Vector3

namespace Ray

/-- `Ray.getPoint`. -/
def getPoint (r : Ray) (t : ℝ) : Vector3 := r.origin.add (r.direction.multiply t)

/-- One axis of the slab test.  The accumulator components are `Option ℝ` with
`none` standing for the `-Infinity` entry / `+Infinity` exit sentinels; the
result is `none` when the loop body would `return false`. -/
def slabAxis (axisOrigin axisDir axisMin axisMax : ℝ)
    (acc : Option ℝ × Option ℝ) : Option (Option ℝ × Option ℝ) :=
  if axisDir = 0 then
    if axisOrigin < axisMin ∨ axisOrigin > axisMax then none else some acc
  else
    let tMin := (axisMin - axisOrigin) / axisDir
    let tMax := (axisMax - axisOrigin) / axisDir
    let sorted := if tMin > tMax then (tMax, tMin) else (tMin, tMax)
    let tEntry := match acc.1 with
      | none => sorted.1
      | some e => Max.max e sorted.1
    let tExit := match acc.2 with
      | none => sorted.2
      | some x => Min.min x sorted.2
    if tEntry > tExit then none else some (some tEntry, some tExit)

/-- The `for (const axis of axes)` loop of `Ray.intersectsBounds`. -/
def slabFold (r : Ray) (bounds : Bounds) :
    List Axis → Option ℝ × Option ℝ → Bool
  | [], _ => true
  | a :: rest, acc =>
      match slabAxis (r.origin.comp a) (r.direction.comp a)
          (bounds.min.comp a) (bounds.max.comp a) acc with
      | none => false
      | some next => slabFold r bounds rest next

/-- `Ray.intersectsBounds`: the per-axis slab test over `["x", "y", "z"]`. -/
def intersectsBounds (r : Ray) (bounds : Bounds) : Bool :=
  slabFold r bounds [Axis.x, Axis.y, Axis.z] (none, none)

/-- `Ray.getTriangleIntersection`: one-sided Möller–Trumbore, `none` on reject. -/
def getTriangleIntersection (r : Ray) (triangle : Triangle) : Option ℝ :=
  let negDirection := r.direction.multiply (-1)
  let determinant := negDirection.dot triangle.edgeCross
  if determinant ≤ 0 then none
  else
    let vertexDifference := r.origin.subtract triangle.v0
    let u := negDirection.dot (vertexDifference.cross triangle.edge2) / determinant
    if u < 0 then none
    else
      let v := negDirection.dot (triangle.edge1.cross vertexDifference) / determinant
      if v < 0 ∨ u + v > 1 then none
      else
        let t := vertexDifference.dot triangle.edgeCross / determinant
        if t < 0 then none else some t

end Ray

/-- 4×4 affine transform (`class Matrix4`), row-major entries. -/
structure Matrix4 where
  entry : Fin 4 → Fin 4 → ℝ

namespace Matrix4

/-- `Matrix4.identity`. -/
def identity : Matrix4 := ⟨fun r c => if r = c then 1 else 0⟩

/-- `Matrix4.fromPosition`. -/
def fromPosition (position : Vector3) : Matrix4 :=
  ⟨fun r c =>
    if r = c then 1
    else if c = 3 then
      if r = 0 then position.x else if r = 1 then position.y
      else if r = 2 then position.z else 0
    else 0⟩

/-- `Matrix4.multiply`: the standard row-by-column product of the source loop. -/
def multiply (m matrix : Matrix4) : Matrix4 :=
  ⟨fun r c => ∑ i : Fin 4, m.entry r i * matrix.entry i c⟩

/-- `Matrix4.apply`: homogeneous application to `(x, y, z, 1)` with perspective
division by the resulting `w` component. -/
def apply (m : Matrix4) (vector : Vector3) : Vector3 :=
  let row : Fin 4 → ℝ := fun r =>
    m.entry r 0 * vector.x + m.entry r 1 * vector.y + m.entry r 2 * vector.z + m.entry r 3
  ⟨row 0 / row 3, row 1 / row 3, row 2 / row 3⟩

end Matrix4

/-- Capsule (`class Capsule`): local endpoints, radius, current transformation.
The cached `tStart` / `tEnd` / `line` / `_bounds` fields recomputed by
`updateTransform` become the derived definitions below. -/
structure Capsule where
  start : Vector3
  endp : Vector3
  radius : ℝ
  transformation : Matrix4

namespace Capsule

/-- Cached `tStart` field. -/
def tStart (c : Capsule) : Vector3 := c.transformation.apply c.start

/-- Cached `tEnd` field. -/
def tEnd (c : Capsule) : Vector3 := c.transformation.apply c.endp

/-- Cached `line` field. -/
def line (c : Capsule) : Line := ⟨c.tStart, c.tEnd⟩

/-- Cached `_bounds` field: endpoint bounds padded by the radius. -/
def bounds (c : Capsule) : Bounds := Bounds.fromPoints [c.tStart, c.tEnd] c.radius

/-- `Capsule.setTransformation` (the cached fields re-derive automatically). -/
def setTransformation (c : Capsule) (transformation : Matrix4) : Capsule :=
  { c with transformation := transformation }

/-- The `reference` local of `Capsule.getTriangleIntersection`: the triangle's
closest point to the axis/plane intersection, or the centroid when the axis
line misses the plane. -/
def reference (c : Capsule) (triangle : Triangle) : Vector3 :=
  match c.line.getPlaneIntersection triangle.v0 triangle.normal false with
  | some p => (triangle.closestPoint p true none).1
  | none => triangle.centroid

/-- The `center` local of `Capsule.getTriangleIntersection`: the point of the
capsule axis closest to the reference point. -/
def center (c : Capsule) (triangle : Triangle) : Vector3 :=
  c.line.closestPointTo (c.reference triangle)

/-- `Capsule.getTriangleIntersection`, returning the `[boolean, Vector3?, number?]`
tuple as `Bool × Option Vector3 × Option ℝ`. -/
def getTriangleIntersection (c : Capsule) (triangle : Triangle) :
    Bool × Option Vector3 × Option ℝ :=
  let res := triangle.closestPoint (c.center triangle) false (some c.radius)
  let insideTriangle := res.2.1
  let pointDistance := res.2.2
  if pointDistance > c.radius then (false, none, none)
  else
    let normal :=
      if insideTriangle then triangle.normal else ((c.center triangle).subtract res.1).unit
    (true, some normal, some (c.radius - pointDistance))

end Capsule

/-! ### Elementary facts about the `fromPoints` accumulators

These feed the termination argument of `BVH.constructNode` and the bounding
invariant of the tree, so they come before the `BVH` definitions. -/

theorem optMin_some (m v : ℝ) : Bounds.optMin (some m) v = some (Min.min m v) := by
  show (if v < m then some v else some m) = some (Min.min m v)
  split_ifs with h
  · rw [min_eq_right h.le]
  · rw [min_eq_left (not_lt.mp h)]

theorem optMax_some (m v : ℝ) : Bounds.optMax (some m) v = some (Max.max m v) := by
  show (if v > m then some v else some m) = some (Max.max m v)
  split_ifs with h
  · rw [max_eq_right h.le]
  · rw [max_eq_left (not_lt.mp h)]

theorem foldl_optMin_some (l : List ℝ) (m : ℝ) :
    l.foldl Bounds.optMin (some m) = some (l.foldl Min.min m) := by
  induction l generalizing m with
  | nil => rfl
  | cons a l ih => rw [List.foldl_cons, List.foldl_cons, optMin_some, ih]

theorem foldl_optMax_some (l : List ℝ) (m : ℝ) :
    l.foldl Bounds.optMax (some m) = some (l.foldl Max.max m) := by
  induction l generalizing m with
  | nil => rfl
  | cons a l ih => rw [List.foldl_cons, List.foldl_cons, optMax_some, ih]

theorem listMin_cons (a : ℝ) (l : List ℝ) :
    Bounds.listMin (a :: l) = l.foldl Min.min a := by
  unfold Bounds.listMin
  rw [List.foldl_cons]
  show (l.foldl Bounds.optMin (some a)).getD 0 = l.foldl Min.min a
  rw [foldl_optMin_some]
  rfl

theorem listMax_cons (a : ℝ) (l : List ℝ) :
    Bounds.listMax (a :: l) = l.foldl Max.max a := by
  unfold Bounds.listMax
  rw [List.foldl_cons]
  show (l.foldl Bounds.optMax (some a)).getD 0 = l.foldl Max.max a
  rw [foldl_optMax_some]
  rfl

theorem foldl_min_le_init (l : List ℝ) (a : ℝ) : l.foldl Min.min a ≤ a := by
  induction l generalizing a with
  | nil => exact le_rfl
  | cons b l ih => exact le_trans (ih (Min.min a b)) (min_le_left a b)

theorem foldl_min_le_mem (l : List ℝ) (a x : ℝ) (hx : x ∈ l) : l.foldl Min.min a ≤ x := by
  induction l generalizing a with
  | nil => cases hx
  | cons b l ih =>
      rcases List.mem_cons.mp hx with rfl | hx
      · exact le_trans (foldl_min_le_init l (Min.min a x)) (min_le_right a x)
      · exact ih (Min.min a b) hx

theorem foldl_min_mem (l : List ℝ) (a : ℝ) : l.foldl Min.min a ∈ a :: l := by
  induction l generalizing a with
  | nil => exact List.mem_singleton.mpr rfl
  | cons b l ih =>
      rw [List.foldl_cons]
      rcases List.mem_cons.mp (ih (Min.min a b)) with h | h
      · rw [h]
        rcases min_cases a b with ⟨he, _⟩ | ⟨he, _⟩
        · rw [he]; exact List.mem_cons_self a (b :: l)
        · rw [he]; exact List.mem_cons_of_mem a (List.mem_cons_self b l)
      · exact List.mem_cons_of_mem a (List.mem_cons_of_mem b h)

theorem le_foldl_max_init (l : List ℝ) (a : ℝ) : a ≤ l.foldl Max.max a := by
  induction l generalizing a with
  | nil => exact le_rfl
  | cons b l ih => exact le_trans (le_max_left a b) (ih (Max.max a b))

theorem mem_le_foldl_max (l : List ℝ) (a x : ℝ) (hx : x ∈ l) : x ≤ l.foldl Max.max a := by
  induction l generalizing a with
  | nil => cases hx
  | cons b l ih =>
      rcases List.mem_cons.mp hx with rfl | hx
      · exact le_trans (le_max_right a x) (le_foldl_max_init l (Max.max a x))
      · exact ih (Max.max a b) hx

theorem foldl_max_mem (l : List ℝ) (a : ℝ) : l.foldl Max.max a ∈ a :: l := by
  induction l generalizing a with
  | nil => exact List.mem_singleton.mpr rfl
  | cons b l ih =>
      rw [List.foldl_cons]
      rcases List.mem_cons.mp (ih (Max.max a b)) with h | h
      · rw [h]
        rcases max_cases a b with ⟨he, _⟩ | ⟨he, _⟩
        · rw [he]; exact List.mem_cons_self a (b :: l)
        · rw [he]; exact List.mem_cons_of_mem a (List.mem_cons_self b l)
      · exact List.mem_cons_of_mem a (List.mem_cons_of_mem b h)

theorem listMin_le_of_mem {l : List ℝ} {x : ℝ} (hx : x ∈ l) : Bounds.listMin l ≤ x := by
  cases l with
  | nil => cases hx
  | cons a l =>
      rw [listMin_cons]
      rcases List.mem_cons.mp hx with rfl | hx
      · exact foldl_min_le_init l x
      · exact foldl_min_le_mem l a x hx

theorem le_listMax_of_mem {l : List ℝ} {x : ℝ} (hx : x ∈ l) : x ≤ Bounds.listMax l := by
  cases l with
  | nil => cases hx
  | cons a l =>
      rw [listMax_cons]
      rcases List.mem_cons.mp hx with rfl | hx
      · exact le_foldl_max_init l x
      · exact mem_le_foldl_max l a x hx

theorem listMin_mem {l : List ℝ} (hl : l ≠ []) : Bounds.listMin l ∈ l := by
  cases l with
  | nil => exact absurd rfl hl
  | cons a l => rw [listMin_cons]; exact foldl_min_mem l a

theorem listMax_mem {l : List ℝ} (hl : l ≠ []) : Bounds.listMax l ∈ l := by
  cases l with
  | nil => exact absurd rfl hl
  | cons a l => rw [listMax_cons]; exact foldl_max_mem l a

theorem listMin_le_listMax {l : List ℝ} (hl : l ≠ []) :
    Bounds.listMin l ≤ Bounds.listMax l :=
  le_trans (listMin_le_of_mem (listMin_mem hl)) (le_listMax_of_mem (listMin_mem hl))

theorem fromPoints_min_comp (points : List Vector3) (r : ℝ) (a : Axis) :
    (Bounds.fromPoints points r).min.comp a =
      Bounds.listMin (points.map (fun v => v.comp a)) - r := by
  cases a <;> rfl

theorem fromPoints_max_comp (points : List Vector3) (r : ℝ) (a : Axis) :
    (Bounds.fromPoints points r).max.comp a =
      Bounds.listMax (points.map (fun v => v.comp a)) + r := by
  cases a <;> rfl

theorem dimensions_comp (b : Bounds) (a : Axis) :
    b.dimensions.comp a = b.max.comp a - b.min.comp a := by
  cases a <;> rfl

theorem center_comp (b : Bounds) (a : Axis) :
    b.center.comp a = (b.min.comp a + b.max.comp a) / 2 := by
  cases a <;> rfl

/-- A vector has magnitude zero exactly when all of its components vanish. -/
theorem magnitude_eq_zero_iff (v : Vector3) :
    v.magnitude = 0 ↔ v.x = 0 ∧ v.y = 0 ∧ v.z = 0 := by
  unfold Vector3.magnitude
  rw [Real.sqrt_eq_zero']
  constructor
  · intro h
    refine ⟨?_, ?_, ?_⟩ <;> nlinarith [sq_nonneg v.x, sq_nonneg v.y, sq_nonneg v.z]
  · rintro ⟨hx, hy, hz⟩
    rw [hx, hy, hz]
    norm_num

/-! ### BVH (`src/collisions/bvh.ts`) -/

/-- A BVH node: `bounds`, optional children, optional leaf triangle list. -/
inductive BVHNode where
  | node (bounds : Bounds) (left : Option BVHNode) (right : Option BVHNode)
      (triangles : Option (List Triangle))

/-- The `bounds` field of a node. -/
def BVHNode.bounds : BVHNode → Bounds
  | .node b _ _ _ => b

/-- The split-axis selection of `constructNode`: start from `"x"`, move to `"y"`
then `"z"` when their center-bounds extent is strictly larger. -/
def splitAxisOf (centerBounds : Bounds) : Axis :=
  let a1 : Axis :=
    if centerBounds.dimensions.y > centerBounds.dimensions.comp Axis.x then Axis.y else Axis.x
  if centerBounds.dimensions.z > centerBounds.dimensions.comp a1 then Axis.z else a1

/-- The partition predicate of `constructNode`: the triangle goes left when its
centroid lies strictly below the centroid-bounds midpoint on the split axis. -/
def splitPred (centerBounds : Bounds) (axis : Axis) (t : Triangle) : Bool :=
  decide (t.centroid.comp axis < centerBounds.center.comp axis)

theorem comp_splitAxisOf (cb : Bounds) :
    cb.dimensions.comp Axis.x ≤ cb.dimensions.comp (splitAxisOf cb) ∧
    cb.dimensions.comp Axis.y ≤ cb.dimensions.comp (splitAxisOf cb) ∧
    cb.dimensions.comp Axis.z ≤ cb.dimensions.comp (splitAxisOf cb) := by
  simp only [splitAxisOf]
  split_ifs <;>
    simp only [Vector3.comp] at * <;>
    refine ⟨?_, ?_, ?_⟩ <;> linarith

/-- On a nonempty list the centroid-bounds extents are nonnegative. -/
theorem centerBounds_dim_nonneg (l : List Triangle) (hl : l ≠ []) (a : Axis) :
    0 ≤ (Bounds.fromPoints (l.map Triangle.centroid) 0).dimensions.comp a := by
  have hne : ((l.map Triangle.centroid).map fun v => v.comp a) ≠ [] := by
    simpa using hl
  have h := listMin_le_listMax hne
  rw [dimensions_comp, fromPoints_min_comp, fromPoints_max_comp]
  linarith

/-- Some triangle attains the centroid maximum on the axis, and it is not below
the midpoint of the centroid bounds, so the right partition of a nonempty list
is never empty. -/
theorem exists_argmax_in_right (l : List Triangle) (hl : l ≠ []) (a : Axis) :
    ∃ t ∈ l, (∀ s ∈ l, s.centroid.comp a ≤ t.centroid.comp a) ∧
      (!splitPred (Bounds.fromPoints (l.map Triangle.centroid) 0) a t) = true := by
  set cb := Bounds.fromPoints (l.map Triangle.centroid) 0 with hcb
  have hne : ((l.map Triangle.centroid).map fun v => v.comp a) ≠ [] := by
    simpa using hl
  have hmem := listMax_mem hne
  rw [List.mem_map] at hmem
  obtain ⟨c, hc, hceq⟩ := hmem
  rw [List.mem_map] at hc
  obtain ⟨t, ht, rfl⟩ := hc
  have hminmax := listMin_le_listMax hne
  have hcenter : cb.center.comp a ≤ t.centroid.comp a := by
    rw [hcb, center_comp, fromPoints_min_comp, fromPoints_max_comp, hceq]
    linarith
  refine ⟨t, ht, ?_, ?_⟩
  · intro s hs
    rw [hceq]
    exact le_listMax_of_mem (by
      rw [List.mem_map]
      exact ⟨s.centroid, List.mem_map_of_mem Triangle.centroid hs, rfl⟩)
  · simp only [splitPred, Bool.not_eq_true', decide_eq_false_iff_not]
    exact not_lt.mpr hcenter

theorem right_partition_ne_nil (l : List Triangle) (hl : l ≠ []) (a : Axis) :
    l.filter (fun t => !splitPred (Bounds.fromPoints (l.map Triangle.centroid) 0) a t) ≠ [] := by
  obtain ⟨t, ht, _, hkeep⟩ := exists_argmax_in_right l hl a
  exact List.ne_nil_of_mem (List.mem_filter.mpr ⟨ht, hkeep⟩)

/-- When the axis extent is strictly positive, the triangle attaining the
centroid minimum lies strictly below the midpoint, so the left partition is
nonempty. -/
theorem exists_argmin_in_left (l : List Triangle) (hl : l ≠ []) (a : Axis)
    (hpos : 0 < (Bounds.fromPoints (l.map Triangle.centroid) 0).dimensions.comp a) :
    ∃ t ∈ l, (∀ s ∈ l, t.centroid.comp a ≤ s.centroid.comp a) ∧
      splitPred (Bounds.fromPoints (l.map Triangle.centroid) 0) a t = true := by
  set cb := Bounds.fromPoints (l.map Triangle.centroid) 0 with hcb
  have hne : ((l.map Triangle.centroid).map fun v => v.comp a) ≠ [] := by
    simpa using hl
  have hmem := listMin_mem hne
  rw [List.mem_map] at hmem
  obtain ⟨c, hc, hceq⟩ := hmem
  rw [List.mem_map] at hc
  obtain ⟨t, ht, rfl⟩ := hc
  have hdim : cb.dimensions.comp a =
      Bounds.listMax ((l.map Triangle.centroid).map fun v => v.comp a) -
        Bounds.listMin ((l.map Triangle.centroid).map fun v => v.comp a) := by
    rw [hcb, dimensions_comp, fromPoints_min_comp, fromPoints_max_comp]
    ring
  have hcenter : t.centroid.comp a < cb.center.comp a := by
    rw [hcb, center_comp, fromPoints_min_comp, fromPoints_max_comp, hceq]
    rw [hcb] at hdim
    linarith [hpos, hdim]
  refine ⟨t, ht, ?_, ?_⟩
  · intro s hs
    rw [hceq]
    exact listMin_le_of_mem (by
      rw [List.mem_map]
      exact ⟨s.centroid, List.mem_map_of_mem Triangle.centroid hs, rfl⟩)
  · simpa only [splitPred, decide_eq_true_eq] using hcenter

theorem left_partition_ne_nil (l : List Triangle) (hl : l ≠ []) (a : Axis)
    (hpos : 0 < (Bounds.fromPoints (l.map Triangle.centroid) 0).dimensions.comp a) :
    l.filter (splitPred (Bounds.fromPoints (l.map Triangle.centroid) 0) a) ≠ [] := by
  obtain ⟨t, ht, _, hkeep⟩ := exists_argmin_in_left l hl a hpos
  exact List.ne_nil_of_mem (List.mem_filter.mpr ⟨ht, hkeep⟩)

/-- The split axis extent is strictly positive whenever the centroid bounds of a
nonempty list have nonzero diagonal magnitude (the non-leaf case). -/
theorem splitAxis_extent_pos (l : List Triangle) (hl : l ≠ [])
    (hmag : (Bounds.fromPoints (l.map Triangle.centroid) 0).dimensions.magnitude ≠ 0) :
    0 < (Bounds.fromPoints (l.map Triangle.centroid) 0).dimensions.comp
      (splitAxisOf (Bounds.fromPoints (l.map Triangle.centroid) 0)) := by
  set cb := Bounds.fromPoints (l.map Triangle.centroid) 0 with hcb
  obtain ⟨hx, hy, hz⟩ := comp_splitAxisOf cb
  have h0 : ∀ a, 0 ≤ cb.dimensions.comp a := fun a => centerBounds_dim_nonneg l hl a
  by_contra hnpos
  push_neg at hnpos
  have hsplit0 : cb.dimensions.comp (splitAxisOf cb) = 0 :=
    le_antisymm hnpos (h0 (splitAxisOf cb))
  apply hmag
  rw [magnitude_eq_zero_iff]
  have ex : cb.dimensions.comp Axis.x = cb.dimensions.x := rfl
  have ey : cb.dimensions.comp Axis.y = cb.dimensions.y := rfl
  have ez : cb.dimensions.comp Axis.z = cb.dimensions.z := rfl
  refine ⟨?_, ?_, ?_⟩
  · linarith [hx, hsplit0, h0 Axis.x, ex]
  · linarith [hy, hsplit0, h0 Axis.y, ey]
  · linarith [hz, hsplit0, h0 Axis.z, ez]

/-- The centroid bounding box (`centerBounds`) of `constructNode`. -/
def centerBoundsOf (triangles : List Triangle) : Bounds :=
  Bounds.fromPoints (triangles.map Triangle.centroid) 0

/-- The `leftTriangles` partition of `constructNode`. -/
def leftTrianglesOf (triangles : List Triangle) : List Triangle :=
  triangles.filter (splitPred (centerBoundsOf triangles) (splitAxisOf (centerBoundsOf triangles)))

/-- The `rightTriangles` partition of `constructNode`. -/
def rightTrianglesOf (triangles : List Triangle) : List Triangle :=
  triangles.filter fun t =>
    !splitPred (centerBoundsOf triangles) (splitAxisOf (centerBoundsOf triangles)) t

theorem left_add_right_length (triangles : List Triangle) :
    (leftTrianglesOf triangles).length + (rightTrianglesOf triangles).length =
      triangles.length :=
  (List.length_eq_length_filter_add
    (splitPred (centerBoundsOf triangles) (splitAxisOf (centerBoundsOf triangles)))).symm

theorem rightTrianglesOf_ne_nil {triangles : List Triangle} (hl : triangles ≠ []) :
    rightTrianglesOf triangles ≠ [] :=
  right_partition_ne_nil triangles hl (splitAxisOf (centerBoundsOf triangles))

theorem leftTrianglesOf_ne_nil {triangles : List Triangle} (hl : triangles ≠ [])
    (hmag : (centerBoundsOf triangles).dimensions.magnitude ≠ 0) :
    leftTrianglesOf triangles ≠ [] :=
  left_partition_ne_nil triangles hl (splitAxisOf (centerBoundsOf triangles))
    (splitAxis_extent_pos triangles hl hmag)

/-- `BVH.constructNode`: set the node bounds from all vertices; leaf when a
single triangle remains or all centroids coincide (zero centroid-bounds
magnitude); otherwise spatial-median split on the largest centroid axis, with a
child built for each nonempty partition. -/
def constructNode (triangles : List Triangle) : BVHNode :=
  if triangles.length = 1 ∨ (centerBoundsOf triangles).dimensions.magnitude = 0 then
    BVHNode.node (Bounds.fromPoints (triangles.flatMap fun t => [t.v0, t.v1, t.v2]) 0)
      none none (some triangles)
  else
    BVHNode.node (Bounds.fromPoints (triangles.flatMap fun t => [t.v0, t.v1, t.v2]) 0)
      (if 0 < (leftTrianglesOf triangles).length
        then some (constructNode (leftTrianglesOf triangles)) else none)
      (if 0 < (rightTrianglesOf triangles).length
        then some (constructNode (rightTrianglesOf triangles)) else none)
      none
termination_by triangles.length
decreasing_by
  · have hnil : triangles ≠ [] := by
      rintro rfl
      simp [leftTrianglesOf] at *
    have hrne := rightTrianglesOf_ne_nil hnil
    have hrlen : 0 < (rightTrianglesOf triangles).length := List.length_pos.mpr hrne
    have hsum := left_add_right_length triangles
    omega
  · have hnil : triangles ≠ [] := by
      rintro rfl
      simp [rightTrianglesOf] at *
    have hmag : (centerBoundsOf triangles).dimensions.magnitude ≠ 0 := by
      rename_i hguard _
      exact fun h => hguard (Or.inr h)
    have hlne := leftTrianglesOf_ne_nil hnil hmag
    have hllen : 0 < (leftTrianglesOf triangles).length := List.length_pos.mpr hlne
    have hsum := left_add_right_length triangles
    omega

/-- A game model: the triangle list the BVH flattens (`GameModel` interface). -/
structure GameModel where
  triangles : List Triangle

/-- `BVH.init`: flatten all model triangles and build the root. -/
def BVH.init (models : List GameModel) : BVHNode :=
  constructNode (models.flatMap GameModel.triangles)

/-- `BVH.traverse`: descend only into subtrees whose bounds pass the filter,
collecting leaf triangles (left subtree, then right, then own). -/
def BVH.traverse (filter : Bounds → Bool) : BVHNode → List Triangle
  | .node b l r ts =>
      if filter b then
        (match l with
          | some n => BVH.traverse filter n
          | none => []) ++
        ((match r with
          | some n => BVH.traverse filter n
          | none => []) ++
        (match ts with
          | some leafTs => leafTs
          | none => []))
      else []

/-- `BVH.getCandidateTriangles`: the `traverse` wrapper. -/
def BVH.getCandidateTriangles (nodeFilter : Bounds → Bool) (root : BVHNode) : List Triangle :=
  BVH.traverse nodeFilter root

/-- Raycast result record (`RaycastInfo`). -/
structure RaycastInfo where
  t : ℝ
  position : Vector3
  normal : Vector3

/-- The minimum-selection loop of `BVH.raycast`.  The accumulator is `none`
while no intersection was kept (`minT = Infinity`); the JavaScript guard
`if (t && t < minT)` drops both missed triangles and hits at exactly `t = 0`
(`0` is falsy). -/
def raycastLoop (r : Ray) : List Triangle → Option (ℝ × Vector3) → Option (ℝ × Vector3)
  | [], acc => acc
  | tri :: rest, acc =>
      raycastLoop r rest
        (match r.getTriangleIntersection tri, acc with
          | some t, none => if t ≠ 0 then some (t, tri.normal) else none
          | some t, some (minT, minNormal) =>
              if t ≠ 0 ∧ t < minT then some (t, tri.normal) else some (minT, minNormal)
          | none, a => a)

/-- `BVH.raycast`: filter candidates by the slab test, scan for the minimum
kept hit, return `t`, the hit position and the struck triangle's normal. -/
def BVH.raycast (root : BVHNode) (ray : Ray) : Option RaycastInfo :=
  let possibleTriangles := BVH.getCandidateTriangles (fun b => ray.intersectsBounds b) root
  match raycastLoop ray possibleTriangles none with
  | none => none
  | some (minT, minNormal) => some ⟨minT, ray.getPoint minT, minNormal⟩

/-- Collision result record (`CollisionInfo`). -/
structure CollisionInfo where
  normal : Vector3
  overlap : ℝ

/-- `BVH.collisionQuery`: filter candidates by bounds overlap and keep every
intersecting triangle's normal/overlap pair. -/
def BVH.collisionQuery (root : BVHNode) (hitbox : Capsule) : List CollisionInfo :=
  let possibleTriangles :=
    BVH.getCandidateTriangles (fun b => hitbox.bounds.overlaps b) root
  possibleTriangles.filterMap fun tri =>
    match hitbox.getTriangleIntersection tri with
    | (true, some n, some ov) => some ⟨n, ov⟩
    | _ => none

/-! ### Entity physics (`src/entity/entity.ts`) -/

/-- `Entity.GRAV_ACCEL`. -/
def GRAV_ACCEL : ℝ := 100

/-- `Entity.MAX_VERTICAL_SLOPE` (80 degrees in radians). -/
def MAX_VERTICAL_SLOPE : ℝ := 80 * Real.pi / 180

/-- The physics-relevant entity state. -/
structure EntityState where
  position : Vector3
  moveDirection : Vector3
  faceMatrix : Matrix4
  moveSpeed : ℝ
  fallSpeed : ℝ
  onFloor : Bool
  hitbox : Capsule

/-- The contact classification of `handleCollisions`: vertical-class when the
angle between the contact normal and world-up is at most the slope bound or at
least its supplement. -/
def Entity.isVerticalContact (normal : Vector3) : Bool :=
  let angle := Real.arccos (normal.dot Vector3.yAxis)
  decide (angle ≤ MAX_VERTICAL_SLOPE ∨ angle ≥ Real.pi - MAX_VERTICAL_SLOPE)

/-- The filtered per-contact correction vectors `normal * overlap` that
`handleCollisions(vertical)` resolves. -/
def Entity.collisionCorrections (bvh : BVHNode) (hitbox : Capsule) (vertical : Bool) :
    List Vector3 :=
  ((BVH.collisionQuery bvh hitbox).filter
      fun collision => Entity.isVerticalContact collision.normal == vertical).map
    fun collision => collision.normal.multiply collision.overlap

/-- The greatest-magnitude selection loop shared by the three passes of
`handleCollisions` (strict `>` against the running best, zero start). -/
def maxMagFold (f : Vector3 → Vector3) (corrections : List Vector3) : Vector3 :=
  corrections.foldl
    (fun best c => if (f c).magnitude > best.magnitude then f c else best) Vector3.zero

/-- `Entity.handleCollisions(vertical)`: transform the hitbox at the current
position, query the BVH, keep the matching-class corrections, pick the primary,
secondary and tertiary corrections and add their sum to the position.  Returns
(were there contacts, total correction, updated state). -/
def Entity.handleCollisions (bvh : BVHNode) (e : EntityState) (vertical : Bool) :
    Bool × Vector3 × EntityState :=
  let hitbox :=
    e.hitbox.setTransformation ((Matrix4.fromPosition e.position).multiply e.faceMatrix)
  let corrections := Entity.collisionCorrections bvh hitbox vertical
  let maxCorrection := maxMagFold (fun c => c) corrections
  let orthogonalCorrection1 :=
    maxMagFold (fun c => c.getOrthogonalComponent maxCorrection) corrections
  let planeNormal := maxCorrection.cross orthogonalCorrection1
  let orthogonalCorrection2 :=
    maxMagFold (fun c => c.getParallelComponent planeNormal) corrections
  let totalCorrection := (maxCorrection.add orthogonalCorrection1).add orthogonalCorrection2
  (decide (corrections.length > 0), totalCorrection,
    { e with position := e.position.add totalCorrection, hitbox := hitbox })

/-- `Entity.updatePhysics(deltaTime)`: vertical integration, vertical contact
resolution (zero fall speed on contact, set `onFloor` from the correction's
upward component), horizontal move, horizontal contact resolution. -/
def Entity.updatePhysics (bvh : BVHNode) (e : EntityState) (deltaTime : ℝ) : EntityState :=
  let fallDisplacement := Vector3.yAxis.multiply (-e.fallSpeed * deltaTime)
  let gravDisplacement := Vector3.yAxis.multiply (-GRAV_ACCEL * deltaTime ^ 2 / 2)
  let e1 := { e with
    position := (e.position.add fallDisplacement).add gravDisplacement,
    fallSpeed := e.fallSpeed + GRAV_ACCEL * deltaTime }
  let vres := Entity.handleCollisions bvh e1 true
  let e3 := { vres.2.2 with
    fallSpeed := if vres.1 then 0 else vres.2.2.fallSpeed,
    onFloor := decide (vres.1 = true ∧ vres.2.1.dot Vector3.yAxis > 0) }
  let e4 := { e3 with
    position := e3.position.add (e3.moveDirection.multiply (e3.moveSpeed * deltaTime)) }
  (Entity.handleCollisions bvh e4 false).2.2

/-! ## General vector facts -/

theorem magnitude_nonneg (v : Vector3) : 0 ≤ v.magnitude := Real.sqrt_nonneg _

theorem eq_zero_of_magnitude_eq_zero {v : Vector3} (h : v.magnitude = 0) :
    v = Vector3.zero := by
  obtain ⟨hx, hy, hz⟩ := (magnitude_eq_zero_iff v).mp h
  cases v
  simp_all [Vector3.zero]

theorem add_zero_vec (v : Vector3) : v.add Vector3.zero = v := by
  cases v
  simp [Vector3.add, Vector3.zero]

/-! ## C7: `Bounds.overlaps` -/

/-- C7.  `Bounds.overlaps` returns `false` exactly when the boxes are separated
along at least one of the three axes (an OR across axes of the per-axis
separating condition), and it is symmetric. -/
theorem bounds_overlaps_spec (A B : Bounds) :
    (Bounds.overlaps A B = false ↔
      (A.min.x > B.max.x ∨ B.min.x > A.max.x) ∨
      (A.min.y > B.max.y ∨ B.min.y > A.max.y) ∨
      (A.min.z > B.max.z ∨ B.min.z > A.max.z)) ∧
    Bounds.overlaps A B = Bounds.overlaps B A := by
  constructor
  · unfold Bounds.overlaps
    split_ifs with h
    · simpa using h
    · simpa using h
  · unfold Bounds.overlaps
    split_ifs with h1 h2 h2
    · rfl
    · exact absurd (by tauto) h2
    · exact absurd (by tauto) h1
    · rfl

/-! ## C5: `Line.getPlaneIntersection` -/

/-- C5.  `Line.getPlaneIntersection` returns no result exactly when the plane
normal is perpendicular to the segment direction, or the range is finite and
the solved parameter falls outside `[0, 1]`; otherwise it returns the point of
the line at that parameter, which lies on the plane. -/
theorem line_plane_intersection_spec (l : Line) (planePoint planeNormal : Vector3)
    (infiniteRange : Bool) :
    (l.getPlaneIntersection planePoint planeNormal infiniteRange = none ↔
      planeNormal.dot l.direction = 0 ∨
        (infiniteRange = false ∧
          (planeNormal.dot (planePoint.subtract l.start) / planeNormal.dot l.direction < 0 ∨
           planeNormal.dot (planePoint.subtract l.start) / planeNormal.dot l.direction > 1))) ∧
    ∀ p, l.getPlaneIntersection planePoint planeNormal infiniteRange = some p →
      p = l.start.add (l.direction.multiply
            (planeNormal.dot (planePoint.subtract l.start) / planeNormal.dot l.direction)) ∧
        planeNormal.dot (p.subtract planePoint) = 0 := by
  unfold Line.getPlaneIntersection
  by_cases hnd : planeNormal.dot l.direction = 0
  · rw [if_pos hnd]
    constructor
    · simp [hnd]
    · intro p hp
      cases hp
  · rw [if_neg hnd]
    by_cases hrange : infiniteRange = false ∧
        (planeNormal.dot (planePoint.subtract l.start) / planeNormal.dot l.direction < 0 ∨
         planeNormal.dot (planePoint.subtract l.start) / planeNormal.dot l.direction > 1)
    · rw [if_pos hrange]
      constructor
      · simp only [eq_self_iff_true, true_iff]
        exact Or.inr hrange
      · intro p hp
        cases hp
    · rw [if_neg hrange]
      constructor
      · simp [hnd, hrange]
      · intro p hp
        have hp2 := Option.some.inj hp
        refine ⟨hp2.symm, ?_⟩
        rw [← hp2]
        cases l
        cases planePoint
        cases planeNormal
        simp only [Vector3.dot, Vector3.subtract, Vector3.add, Vector3.multiply,
          Line.direction] at *
        field_simp
        ring

/-! ## C4: `Capsule.getTriangleIntersection` -/

/-- C4.  The capsule/triangle test reports no collision when the computed
closest-point distance exceeds the radius, and otherwise reports a collision
with overlap `radius - distance` and a normal equal to the triangle normal when
the closest point was contained, or the unit direction from the boundary
closest point to the axis point when it was not. -/
theorem capsule_triangle_intersection_spec (c : Capsule) (tri : Triangle) :
    ((tri.closestPoint (c.center tri) false (some c.radius)).2.2 > c.radius →
      c.getTriangleIntersection tri = (false, none, none)) ∧
    ((tri.closestPoint (c.center tri) false (some c.radius)).2.2 ≤ c.radius →
      c.getTriangleIntersection tri =
        (true,
         some (if (tri.closestPoint (c.center tri) false (some c.radius)).2.1 = true
            then tri.normal
            else ((c.center tri).subtract
              (tri.closestPoint (c.center tri) false (some c.radius)).1).unit),
         some (c.radius - (tri.closestPoint (c.center tri) false (some c.radius)).2.2))) := by
  unfold Capsule.getTriangleIntersection
  constructor
  · intro h
    rw [if_pos h]
  · intro h
    rw [if_neg (not_lt.mpr h)]

/-! ## C6: the `occludeDist` early return -/

/-- C6 (amended).  `Triangle.closestPoint` returns early with the "not close"
result when the signed plane distance itself (not its magnitude) exceeds
`occludeDist`; `Capsule.getTriangleIntersection` passes its radius as that
bound, so a signed axis-point distance above the radius yields no collision. -/
theorem closestPoint_occlude_amended :
    (∀ (tri : Triangle) (reference : Vector3) (d : ℝ),
      (reference.subtract tri.v0).dot tri.normal > d →
      tri.closestPoint reference false (some d) =
        (Vector3.zero, false, (reference.subtract tri.v0).dot tri.normal)) ∧
    (∀ (c : Capsule) (tri : Triangle),
      ((c.center tri).subtract tri.v0).dot tri.normal > c.radius →
      c.getTriangleIntersection tri = (false, none, none)) := by
  have part1 : ∀ (tri : Triangle) (reference : Vector3) (d : ℝ),
      (reference.subtract tri.v0).dot tri.normal > d →
      tri.closestPoint reference false (some d) =
        (Vector3.zero, false, (reference.subtract tri.v0).dot tri.normal) := by
    intro tri reference d h
    unfold Triangle.closestPoint
    simp only [Bool.false_eq_true, if_false]
    rw [if_pos h]
  refine ⟨part1, ?_⟩
  intro c tri h
  unfold Capsule.getTriangleIntersection
  rw [part1 tri (c.center tri) c.radius h]
  rw [if_pos h]

/-- The triangle of the C6 counterexample, with unit normal `(0, 0, 1)`. -/
def occTriangle : Triangle := ⟨⟨0, 0, 0⟩, ⟨1, 0, 0⟩, ⟨0, 1, 0⟩⟩

theorem occTriangle_normal : occTriangle.normal = ⟨0, 0, 1⟩ := by
  unfold Triangle.normal Triangle.edgeCross Triangle.edge1 Triangle.edge2 occTriangle
  simp only [Vector3.cross, Vector3.subtract, Vector3.unit, Vector3.magnitude,
    Vector3.divide]
  norm_num

/-- C6 counterexample: at reference `(1/4, 1/4, -5)` with `occludeDist = 1` the
magnitude of the signed distance (`5`) exceeds the bound, yet the code performs
no early return: it runs the containment test and reports the projected point
as contained, not the "not close" result the claim predicts. -/
theorem closestPoint_occlude_cex :
    occTriangle.closestPoint ⟨1/4, 1/4, -5⟩ false (some 1) =
      ((⟨1/4, 1/4, 0⟩ : Vector3), true, (-5 : ℝ)) ∧
    |(-5 : ℝ)| > 1 ∧
    (((⟨1/4, 1/4, 0⟩ : Vector3), true, (-5 : ℝ)) : Vector3 × Bool × ℝ) ≠
      (Vector3.zero, false, -5) := by
  refine ⟨?_, by norm_num, by simp⟩
  unfold Triangle.closestPoint
  simp only [Bool.false_eq_true, if_false]
  rw [show ((⟨1/4, 1/4, -5⟩ : Vector3).subtract occTriangle.v0).dot occTriangle.normal
      = -5 from by
    rw [occTriangle_normal]
    simp only [occTriangle, Vector3.subtract, Vector3.dot]
    norm_num]
  rw [if_neg (by norm_num)]
  unfold Triangle.closestPointCore
  rw [occTriangle_normal]
  rw [if_pos (by
    simp only [occTriangle, Vector3.subtract, Vector3.cross, Vector3.dot,
      Vector3.multiply]
    norm_num)]
  simp only [occTriangle, Vector3.subtract, Vector3.multiply]
  norm_num

/-! ## C2: the correction decomposition of `handleCollisions` -/

theorem magnitude_zero : Vector3.zero.magnitude = 0 := by
  simp [Vector3.magnitude, Vector3.zero]

theorem foldl_maxMag_ge_init (f : Vector3 → Vector3) (l : List Vector3) (init : Vector3) :
    init.magnitude ≤
      (l.foldl (fun best c => if (f c).magnitude > best.magnitude then f c else best)
        init).magnitude := by
  induction l generalizing init with
  | nil => exact le_rfl
  | cons a l ih =>
      rw [List.foldl_cons]
      split_ifs with h
      · exact le_trans (le_of_lt h) (ih (f a))
      · exact ih init

theorem foldl_maxMag_ge_mem (f : Vector3 → Vector3) (l : List Vector3) (init : Vector3) :
    ∀ c ∈ l, (f c).magnitude ≤
      (l.foldl (fun best c => if (f c).magnitude > best.magnitude then f c else best)
        init).magnitude := by
  induction l generalizing init with
  | nil => intro c hc; cases hc
  | cons a l ih =>
      intro c hc
      rw [List.foldl_cons]
      rcases List.mem_cons.mp hc with rfl | hc
      · split_ifs with h
        · exact foldl_maxMag_ge_init f l (f c)
        · exact le_trans (not_lt.mp h) (foldl_maxMag_ge_init f l init)
      · split_ifs with h
        · exact ih (f a) c hc
        · exact ih init c hc

theorem foldl_maxMag_mem (f : Vector3 → Vector3) (l : List Vector3) (init : Vector3) :
    (l.foldl (fun best c => if (f c).magnitude > best.magnitude then f c else best) init)
        = init ∨
      ∃ c ∈ l,
        (l.foldl (fun best c => if (f c).magnitude > best.magnitude then f c else best) init)
          = f c := by
  induction l generalizing init with
  | nil => exact Or.inl rfl
  | cons a l ih =>
      rw [List.foldl_cons]
      split_ifs with h
      · rcases ih (f a) with h2 | ⟨c, hc, h2⟩
        · exact Or.inr ⟨a, List.mem_cons_self a l, h2⟩
        · exact Or.inr ⟨c, List.mem_cons_of_mem a hc, h2⟩
      · rcases ih init with h2 | ⟨c, hc, h2⟩
        · exact Or.inl h2
        · exact Or.inr ⟨c, List.mem_cons_of_mem a hc, h2⟩

/-- Every pass output bounds the keyed magnitudes of the list, and on a
nonempty list it is the key of some member (the all-zero case degrades to the
zero vector, which is then itself a member key). -/
theorem maxMagFold_spec (f : Vector3 → Vector3) (l : List Vector3) :
    (∀ c ∈ l, (f c).magnitude ≤ (maxMagFold f l).magnitude) ∧
    (l ≠ [] → ∃ c ∈ l, maxMagFold f l = f c) := by
  constructor
  · exact foldl_maxMag_ge_mem f l Vector3.zero
  · intro hl
    rcases foldl_maxMag_mem f l Vector3.zero with h | h
    · cases l with
      | nil => exact absurd rfl hl
      | cons a l =>
          refine ⟨a, List.mem_cons_self a l, ?_⟩
          have hle := foldl_maxMag_ge_mem f (a :: l) Vector3.zero a (List.mem_cons_self a l)
          rw [maxMagFold] at *
          rw [h] at hle
          rw [magnitude_zero] at hle
          have hfa := eq_zero_of_magnitude_eq_zero
            (le_antisymm hle (magnitude_nonneg (f a)))
          rw [h, hfa]
    · exact h

/-- C2.  One resolution pass adds exactly `primary + secondary + tertiary` to
the entity position, where the primary is a greatest-magnitude correction, the
secondary a greatest-magnitude component orthogonal to the primary, and the
tertiary a greatest-magnitude component parallel to `primary × secondary`;
with no contacts of the requested class the position is unchanged. -/
theorem handleCollisions_decomposition (bvh : BVHNode) (e : EntityState) (vertical : Bool) :
    let hitbox :=
      e.hitbox.setTransformation ((Matrix4.fromPosition e.position).multiply e.faceMatrix)
    let C := Entity.collisionCorrections bvh hitbox vertical
    let res := Entity.handleCollisions bvh e vertical
    ∃ P S T : Vector3,
      res.2.1 = (P.add S).add T ∧
      res.2.2.position = e.position.add ((P.add S).add T) ∧
      res.1 = decide (C.length > 0) ∧
      (C = [] → res.2.2.position = e.position) ∧
      (C ≠ [] →
        P ∈ C ∧ (∀ c ∈ C, c.magnitude ≤ P.magnitude) ∧
        (∃ c ∈ C, S = c.getOrthogonalComponent P) ∧
        (∀ c ∈ C, (c.getOrthogonalComponent P).magnitude ≤ S.magnitude) ∧
        (∃ c ∈ C, T = c.getParallelComponent (P.cross S)) ∧
        (∀ c ∈ C, (c.getParallelComponent (P.cross S)).magnitude ≤ T.magnitude)) := by
  intro hitbox C res
  refine ⟨maxMagFold (fun c => c) C,
    maxMagFold (fun c => c.getOrthogonalComponent (maxMagFold (fun c => c) C)) C,
    maxMagFold (fun c => c.getParallelComponent
      ((maxMagFold (fun c => c) C).cross
        (maxMagFold (fun c => c.getOrthogonalComponent (maxMagFold (fun c => c) C)) C))) C,
    rfl, rfl, rfl, ?_, ?_⟩
  · intro hC
    have hC2 : Entity.collisionCorrections bvh
        (e.hitbox.setTransformation ((Matrix4.fromPosition e.position).multiply e.faceMatrix))
        vertical = [] := hC
    show e.position.add _ = e.position
    rw [hC2]
    simp only [maxMagFold, List.foldl_nil, add_zero_vec]
  · intro hC
    obtain ⟨hP1, hP2⟩ := maxMagFold_spec (fun c => c) C
    obtain ⟨cP, hcP, hPeq⟩ := hP2 hC
    obtain ⟨hS1, hS2⟩ :=
      maxMagFold_spec (fun c => c.getOrthogonalComponent (maxMagFold (fun c => c) C)) C
    obtain ⟨cS, hcS, hSeq⟩ := hS2 hC
    obtain ⟨hT1, hT2⟩ := maxMagFold_spec (fun c => c.getParallelComponent
      ((maxMagFold (fun c => c) C).cross
        (maxMagFold (fun c => c.getOrthogonalComponent (maxMagFold (fun c => c) C)) C))) C
    obtain ⟨cT, hcT, hTeq⟩ := hT2 hC
    exact ⟨hPeq ▸ hcP, hP1, ⟨cS, hcS, hSeq⟩, hS1, ⟨cT, hcT, hTeq⟩, hT1⟩

/-! ## C3: `Entity.updatePhysics` -/

/-- C3.  One physics step first displaces the position along world-up by
`-(fallSpeed*dt) - g*dt²/2` and advances the fall speed by `g*dt`; after the
vertical resolution pass the fall speed is zeroed exactly when a vertical-class
contact was found (else it keeps the advanced value), and `onFloor` ends true
exactly when a vertical contact was found and the summed vertical correction
points upward. -/
theorem updatePhysics_spec (bvh : BVHNode) (e : EntityState) (dt : ℝ) :
    let e1 : EntityState := { e with
      position := (e.position.add (Vector3.yAxis.multiply (-e.fallSpeed * dt))).add
        (Vector3.yAxis.multiply (-GRAV_ACCEL * dt ^ 2 / 2)),
      fallSpeed := e.fallSpeed + GRAV_ACCEL * dt }
    let vres := Entity.handleCollisions bvh e1 true
    ((Entity.updatePhysics bvh e dt).fallSpeed =
        if vres.1 = true then 0 else e.fallSpeed + GRAV_ACCEL * dt) ∧
    ((Entity.updatePhysics bvh e dt).onFloor = true ↔
        vres.1 = true ∧ vres.2.1.dot Vector3.yAxis > 0) ∧
    (vres.1 = true ↔
        Entity.collisionCorrections bvh
          (e1.hitbox.setTransformation
            ((Matrix4.fromPosition e1.position).multiply e1.faceMatrix)) true ≠ []) ∧
    e1.position = e.position.add
        (Vector3.yAxis.multiply (-(e.fallSpeed * dt) - GRAV_ACCEL * dt ^ 2 / 2)) := by
  intro e1 vres
  refine ⟨rfl, ?_, ?_, ?_⟩
  · show decide (vres.1 = true ∧ vres.2.1.dot Vector3.yAxis > 0) = true ↔ _
    exact decide_eq_true_iff
  · show decide (0 < (Entity.collisionCorrections bvh _ true).length) = true ↔ _
    rw [decide_eq_true_iff]
    exact List.length_pos
  · show (e.position.add (Vector3.yAxis.multiply (-e.fallSpeed * dt))).add
        (Vector3.yAxis.multiply (-GRAV_ACCEL * dt ^ 2 / 2)) = _
    cases e.position with
    | mk px py pz =>
        simp only [Vector3.add, Vector3.multiply, Vector3.yAxis]
        norm_num
        ring

/-! ## C8: empty triangle set -/

theorem traverse_trivial (b : Bounds) (f : Bounds → Bool) :
    BVH.traverse f (BVHNode.node b none none (some [])) = [] := by
  rw [BVH.traverse]
  split_ifs <;> rfl

/-- C8.  With no triangles (no models, or models with empty triangle lists) the
BVH builds a trivial leaf, every raycast returns no hit and every collision
query returns the empty contact list. -/
theorem bvh_empty_spec (models : List GameModel)
    (h : models.flatMap GameModel.triangles = []) :
    BVH.init models = BVHNode.node (Bounds.fromPoints [] 0) none none (some []) ∧
    (∀ ray, BVH.raycast (BVH.init models) ray = none) ∧
    (∀ caps, BVH.collisionQuery (BVH.init models) caps = []) := by
  have hmag : (centerBoundsOf ([] : List Triangle)).dimensions.magnitude = 0 := by
    simp only [centerBoundsOf, Bounds.fromPoints, Bounds.dimensions, Bounds.listMin,
      Bounds.listMax, List.map, List.foldl, Option.getD, Vector3.subtract,
      Vector3.magnitude]
    norm_num
  have hinit : BVH.init models =
      BVHNode.node (Bounds.fromPoints [] 0) none none (some []) := by
    rw [BVH.init, h, constructNode]
    rw [if_pos (Or.inr hmag :
      ([] : List Triangle).length = 1 ∨
        (centerBoundsOf ([] : List Triangle)).dimensions.magnitude = 0)]
    rfl
  refine ⟨hinit, ?_, ?_⟩
  · intro ray
    rw [hinit, BVH.raycast, BVH.getCandidateTriangles, traverse_trivial]
    rfl
  · intro caps
    rw [hinit, BVH.collisionQuery, BVH.getCandidateTriangles, traverse_trivial]
    rfl

/-- C8 witness: the empty model list builds without failing and both query
operations return their empty results. -/
theorem bvh_empty_witness :
    BVH.raycast (BVH.init []) ⟨⟨0, 0, 0⟩, ⟨1, 0, 0⟩⟩ = none ∧
    BVH.collisionQuery (BVH.init [])
      ⟨⟨0, 0, 0⟩, ⟨0, 1, 0⟩, 1, Matrix4.identity⟩ = [] := by
  have h := bvh_empty_spec [] rfl
  exact ⟨h.2.1 _, h.2.2 _⟩

/-! ## C9: the `constructNode` split always shrinks -/

/-- C9.  Whenever the leaf guard fails (at least two triangles and nonzero
centroid-bounds extent), the chosen split axis has strictly positive centroid
extent, a triangle attaining the axis minimum goes to the left partition, one
attaining the maximum goes to the right, and both recursive calls receive
nonempty, strictly smaller triangle lists. -/
theorem constructNode_split_spec (triangles : List Triangle)
    (h2 : 2 ≤ triangles.length)
    (hmag : (centerBoundsOf triangles).dimensions.magnitude ≠ 0) :
    0 < (centerBoundsOf triangles).dimensions.comp
        (splitAxisOf (centerBoundsOf triangles)) ∧
    (∃ t ∈ triangles,
      (∀ s ∈ triangles,
        t.centroid.comp (splitAxisOf (centerBoundsOf triangles)) ≤
          s.centroid.comp (splitAxisOf (centerBoundsOf triangles))) ∧
      t ∈ leftTrianglesOf triangles) ∧
    (∃ t ∈ triangles,
      (∀ s ∈ triangles,
        s.centroid.comp (splitAxisOf (centerBoundsOf triangles)) ≤
          t.centroid.comp (splitAxisOf (centerBoundsOf triangles))) ∧
      t ∈ rightTrianglesOf triangles) ∧
    (leftTrianglesOf triangles).length < triangles.length ∧
    (rightTrianglesOf triangles).length < triangles.length := by
  have hl : triangles ≠ [] := by
    intro hnil
    rw [hnil] at h2
    norm_num at h2
  have hpos := splitAxis_extent_pos triangles hl hmag
  obtain ⟨tmin, htmin, hminle, hminkeep⟩ :=
    exists_argmin_in_left triangles hl (splitAxisOf (centerBoundsOf triangles)) hpos
  obtain ⟨tmax, htmax, hmaxle, hmaxkeep⟩ :=
    exists_argmax_in_right triangles hl (splitAxisOf (centerBoundsOf triangles))
  have hlm : tmin ∈ leftTrianglesOf triangles :=
    List.mem_filter.mpr ⟨htmin, hminkeep⟩
  have hrm : tmax ∈ rightTrianglesOf triangles :=
    List.mem_filter.mpr ⟨htmax, hmaxkeep⟩
  have hsum := left_add_right_length triangles
  have hllen : 0 < (leftTrianglesOf triangles).length :=
    List.length_pos.mpr (List.ne_nil_of_mem hlm)
  have hrlen : 0 < (rightTrianglesOf triangles).length :=
    List.length_pos.mpr (List.ne_nil_of_mem hrm)
  exact ⟨hpos, ⟨tmin, htmin, hminle, hlm⟩, ⟨tmax, htmax, hmaxle, hrm⟩,
    by omega, by omega⟩

/-! ## Concrete evaluation helpers -/

theorem magnitude_eval (v : Vector3) (m : ℝ) (hm : 0 ≤ m)
    (h : v.x ^ 2 + v.y ^ 2 + v.z ^ 2 = m ^ 2) : v.magnitude = m := by
  unfold Vector3.magnitude
  rw [h, Real.sqrt_sq hm]

theorem unit_eval (v : Vector3) (m : ℝ) (hm : 0 < m)
    (h : v.x ^ 2 + v.y ^ 2 + v.z ^ 2 = m ^ 2) : v.unit = v.divide m := by
  unfold Vector3.unit
  rw [magnitude_eval v m hm.le h, if_neg hm.ne']

theorem identity_apply (v : Vector3) : Matrix4.identity.apply v = v := by
  cases v
  simp [Matrix4.apply, Matrix4.identity]

/-- The horizontal floor triangle of the example scenarios (normal `(0,1,0)`). -/
def floorTri : Triangle := ⟨⟨-10, 0, -10⟩, ⟨0, 0, 10⟩, ⟨10, 0, -10⟩⟩

theorem floorTri_edgeCross : floorTri.edgeCross = ⟨0, 400, 0⟩ := by
  simp only [floorTri, Triangle.edgeCross, Triangle.edge1, Triangle.edge2,
    Vector3.cross, Vector3.subtract]
  norm_num

theorem floorTri_normal : floorTri.normal = ⟨0, 1, 0⟩ := by
  rw [Triangle.normal, floorTri_edgeCross,
    unit_eval ⟨0, 400, 0⟩ 400 (by norm_num) (by norm_num)]
  simp only [Vector3.divide]
  norm_num

theorem floorTri_centroid : floorTri.centroid = ⟨0, 0, -10 / 3⟩ := by
  simp only [floorTri, Triangle.centroid, Vector3.add, Vector3.divide]
  norm_num

theorem floorLeaf : constructNode [floorTri] =
    BVHNode.node ⟨⟨-10, 0, -10⟩, ⟨10, 0, 10⟩⟩ none none (some [floorTri]) := by
  rw [constructNode]
  rw [if_pos (Or.inl rfl :
    [floorTri].length = 1 ∨ (centerBoundsOf [floorTri]).dimensions.magnitude = 0)]
  rw [show Bounds.fromPoints ([floorTri].flatMap fun t => [t.v0, t.v1, t.v2]) 0 =
      (⟨⟨-10, 0, -10⟩, ⟨10, 0, 10⟩⟩ : Bounds) from by
    simp only [floorTri, List.flatMap_cons, List.flatMap_nil, List.append_nil,
      Bounds.fromPoints, Bounds.listMin, Bounds.listMax, Bounds.optMin, Bounds.optMax,
      List.map, List.foldl, Option.getD]
    norm_num]

/-- A capsule whose axis point ends up behind the floor plane: the signed
distance is negative, so the reported overlap exceeds the radius. -/
def deepCapsule : Capsule := ⟨⟨0, -2, 0⟩, ⟨0, -1, 0⟩, 3, Matrix4.identity⟩

theorem deepCapsule_line : deepCapsule.line = ⟨⟨0, -2, 0⟩, ⟨0, -1, 0⟩⟩ := by
  unfold Capsule.line Capsule.tStart Capsule.tEnd deepCapsule
  rw [identity_apply, identity_apply]

theorem deepCapsule_reference : deepCapsule.reference floorTri = ⟨0, 0, -10 / 3⟩ := by
  have hpi : (Line.mk ⟨0, -2, 0⟩ ⟨0, -1, 0⟩).getPlaneIntersection floorTri.v0
      floorTri.normal false = none := by
    rw [floorTri_normal]
    unfold Line.getPlaneIntersection Line.direction
    simp only [floorTri, Vector3.subtract, Vector3.dot]
    norm_num
  unfold Capsule.reference
  rw [deepCapsule_line, hpi]
  exact floorTri_centroid

theorem deepCapsule_center : deepCapsule.center floorTri = ⟨0, -1, 0⟩ := by
  have hdir : (Line.mk (⟨0, -2, 0⟩ : Vector3) ⟨0, -1, 0⟩).direction = ⟨0, 1, 0⟩ := by
    simp only [Line.direction, Vector3.subtract]
    norm_num
  have hunit : (⟨0, 1, 0⟩ : Vector3).unit = ⟨0, 1, 0⟩ := by
    rw [unit_eval ⟨0, 1, 0⟩ 1 one_pos (by norm_num)]
    simp only [Vector3.divide]
    norm_num
  have hmagd : (⟨0, 1, 0⟩ : Vector3).magnitude = 1 :=
    magnitude_eval _ 1 one_pos.le (by norm_num)
  unfold Capsule.center
  rw [deepCapsule_reference, deepCapsule_line]
  unfold Line.closestPointTo
  rw [hdir, hunit, hmagd]
  simp only [Vector3.subtract, Vector3.dot, Vector3.add, Vector3.multiply, Util.clamp]
  norm_num

theorem deep_closestPoint :
    floorTri.closestPoint ⟨0, -1, 0⟩ false (some 3) = (⟨0, 0, 0⟩, true, -1) := by
  unfold Triangle.closestPoint
  simp only [Bool.false_eq_true, if_false]
  rw [show ((⟨0, -1, 0⟩ : Vector3).subtract floorTri.v0).dot floorTri.normal = -1 from by
    rw [floorTri_normal]
    simp only [floorTri, Vector3.subtract, Vector3.dot]
    norm_num]
  rw [if_neg (by norm_num : ¬((-1 : ℝ) > 3))]
  rw [show (⟨0, -1, 0⟩ : Vector3).subtract (floorTri.normal.multiply (-1)) =
      (⟨0, 0, 0⟩ : Vector3) from by
    rw [floorTri_normal]
    simp only [Vector3.subtract, Vector3.multiply]
    norm_num]
  unfold Triangle.closestPointCore
  rw [if_pos (by
    rw [floorTri_normal]
    simp only [floorTri, Vector3.subtract, Vector3.cross, Vector3.dot]
    norm_num)]

theorem deepCapsule_hit :
    deepCapsule.getTriangleIntersection floorTri = (true, some ⟨0, 1, 0⟩, some 4) := by
  have hrad : deepCapsule.radius = 3 := rfl
  unfold Capsule.getTriangleIntersection
  rw [hrad, deepCapsule_center, deep_closestPoint]
  rw [if_neg (by norm_num : ¬((-1 : ℝ) > 3))]
  rw [floorTri_normal]
  norm_num

theorem deepCapsule_bounds : deepCapsule.bounds = ⟨⟨-3, -5, -3⟩, ⟨3, 2, 3⟩⟩ := by
  unfold Capsule.bounds Capsule.tStart Capsule.tEnd deepCapsule
  rw [identity_apply, identity_apply]
  simp only [Bounds.fromPoints, Bounds.listMin, Bounds.listMax, Bounds.optMin,
    Bounds.optMax, List.map, List.foldl, Option.getD]
  norm_num

theorem deep_query :
    BVH.collisionQuery (constructNode [floorTri]) deepCapsule = [⟨⟨0, 1, 0⟩, 4⟩] := by
  rw [floorLeaf, BVH.collisionQuery, BVH.getCandidateTriangles, BVH.traverse]
  rw [show deepCapsule.bounds.overlaps (⟨⟨-10, 0, -10⟩, ⟨10, 0, 10⟩⟩ : Bounds) = true from by
    rw [deepCapsule_bounds]
    unfold Bounds.overlaps
    rw [if_neg (by push_neg; norm_num)]]
  simp only [if_true, List.nil_append, List.filterMap]
  rw [deepCapsule_hit]

/-! ## C10: the overlap range of reported contacts -/

theorem capsule_overlap_nonneg (c : Capsule) (tri : Triangle) (b : Bool)
    (n : Option Vector3) (ov : ℝ)
    (h : c.getTriangleIntersection tri = (b, n, some ov)) : 0 ≤ ov := by
  unfold Capsule.getTriangleIntersection at h
  dsimp only at h
  split_ifs at h with hgt
  · simp at h
  all_goals
    have hov : c.radius - (tri.closestPoint (c.center tri) false (some c.radius)).2.2 = ov := by
      have h2 := congrArg (fun p => p.2.2) h
      simpa using h2
  all_goals
    rw [← hov]
    push_neg at hgt
    linarith

/-- C10 (amended).  Every contact a collision query reports has nonnegative
overlap (it equals the radius minus the computed distance, and the collision is
only kept when that distance is at most the radius; no lower bound on the
distance is checked, so the overlap can exceed the radius). -/
theorem collisionQuery_overlap_nonneg (bvh : BVHNode) (caps : Capsule)
    (info : CollisionInfo) (hmem : info ∈ BVH.collisionQuery bvh caps) :
    0 ≤ info.overlap := by
  rw [BVH.collisionQuery] at hmem
  rw [List.mem_filterMap] at hmem
  obtain ⟨tri, _, heq⟩ := hmem
  rcases hres : caps.getTriangleIntersection tri with ⟨hb, hn, hov⟩
  rw [hres] at heq
  cases hb <;> cases hn <;> cases hov <;> simp at heq
  next n ov =>
    rw [← heq]
    exact capsule_overlap_nonneg caps tri true (some n) ov hres

/-- C10 counterexample: a capsule axis point lying behind the floor plane gets
a collision with overlap `4` although the capsule radius is `3`, and the signed
distance `-1` is negative: the claimed bounds `overlap ≤ radius` and
`0 ≤ distance` fail. -/
theorem collision_overlap_cex :
    BVH.collisionQuery (constructNode [floorTri]) deepCapsule = [⟨⟨0, 1, 0⟩, 4⟩] ∧
    deepCapsule.radius = 3 ∧ ¬((4 : ℝ) ≤ 3) ∧
    (floorTri.closestPoint (deepCapsule.center floorTri) false
      (some deepCapsule.radius)).2.2 = -1 ∧ ¬((0 : ℝ) ≤ -1) := by
  refine ⟨deep_query, rfl, by norm_num, ?_, by norm_num⟩
  rw [show deepCapsule.radius = 3 from rfl, deepCapsule_center, deep_closestPoint]

/-- C10 witness: the scenario contact of `deep_query` has nonnegative overlap. -/
theorem collision_overlap_witness : (0 : ℝ) ≤ 4 :=
  collisionQuery_overlap_nonneg (constructNode [floorTri]) deepCapsule ⟨⟨0, 1, 0⟩, 4⟩
    (by rw [deep_query]; exact List.mem_singleton.mpr rfl)

/-! ## C9 witness -/

/-- A copy of `occTriangle` shifted along the x axis, for the split witness. -/
def occT2 : Triangle := ⟨⟨10, 0, 0⟩, ⟨11, 0, 0⟩, ⟨10, 1, 0⟩⟩

theorem split_witness_dims :
    (centerBoundsOf [occTriangle, occT2]).dimensions = ⟨10, 0, 0⟩ := by
  simp only [centerBoundsOf, occTriangle, occT2, Triangle.centroid, Vector3.add,
    Vector3.divide, Bounds.fromPoints, Bounds.dimensions, Bounds.listMin, Bounds.listMax,
    Bounds.optMin, Bounds.optMax, List.map, List.foldl, Option.getD, Vector3.subtract]
  norm_num

/-- C9 witness: on two x-separated triangles the guard fails and the split
conclusions hold. -/
theorem constructNode_split_witness :
    0 < (centerBoundsOf [occTriangle, occT2]).dimensions.comp
        (splitAxisOf (centerBoundsOf [occTriangle, occT2])) ∧
    (∃ t ∈ [occTriangle, occT2],
      (∀ s ∈ [occTriangle, occT2],
        t.centroid.comp (splitAxisOf (centerBoundsOf [occTriangle, occT2])) ≤
          s.centroid.comp (splitAxisOf (centerBoundsOf [occTriangle, occT2]))) ∧
      t ∈ leftTrianglesOf [occTriangle, occT2]) ∧
    (∃ t ∈ [occTriangle, occT2],
      (∀ s ∈ [occTriangle, occT2],
        s.centroid.comp (splitAxisOf (centerBoundsOf [occTriangle, occT2])) ≤
          t.centroid.comp (splitAxisOf (centerBoundsOf [occTriangle, occT2]))) ∧
      t ∈ rightTrianglesOf [occTriangle, occT2]) ∧
    (leftTrianglesOf [occTriangle, occT2]).length < [occTriangle, occT2].length ∧
    (rightTrianglesOf [occTriangle, occT2]).length < [occTriangle, occT2].length :=
  constructNode_split_spec [occTriangle, occT2] (by norm_num)
    (by
      rw [split_witness_dims]
      rw [magnitude_eval ⟨10, 0, 0⟩ 10 (by norm_num) (by norm_num)]
      norm_num)

/-! ## C1: BVH raycast vs. brute force -/

/-- The multiset of triangles stored in a subtree (left, right, own order,
mirroring `traverse` with a filter that always passes). -/
def treeTriangles : BVHNode → List Triangle
  | .node _ l r ts =>
      (match l with
        | some n => treeTriangles n
        | none => []) ++
      ((match r with
        | some n => treeTriangles n
        | none => []) ++
      (match ts with
        | some leafTs => leafTs
        | none => []))

/-- Membership in an axis-aligned box, axis by axis. -/
def inBounds (b : Bounds) (p : Vector3) : Prop :=
  ∀ a : Axis, b.min.comp a ≤ p.comp a ∧ p.comp a ≤ b.max.comp a

/-- The bounding invariant of a built tree: every node's box contains every
vertex of every triangle of its subtree. -/
def nodeCovers : BVHNode → Prop
  | .node b l r ts =>
      (∀ tri ∈ treeTriangles (.node b l r ts),
        inBounds b tri.v0 ∧ inBounds b tri.v1 ∧ inBounds b tri.v2) ∧
      (match l with
        | some n => nodeCovers n
        | none => True) ∧
      (match r with
        | some n => nodeCovers n
        | none => True)

theorem inBounds_fromPoints {points : List Vector3} {p : Vector3} (hp : p ∈ points) :
    inBounds (Bounds.fromPoints points 0) p := by
  intro a
  rw [fromPoints_min_comp, fromPoints_max_comp]
  have hmem : p.comp a ∈ points.map (fun v => v.comp a) :=
    List.mem_map_of_mem (fun v => v.comp a) hp
  have h1 := listMin_le_of_mem hmem
  have h2 := le_listMax_of_mem hmem
  constructor <;> linarith

/-- The triangles collected over a built tree are a permutation of the input. -/
theorem treeTriangles_perm (L : List Triangle) :
    List.Perm (treeTriangles (constructNode L)) L := by
  induction L using constructNode.induct
  next triangles hguard =>
    rw [constructNode, if_pos hguard, treeTriangles.eq_def]
    simp
  next triangles hguard ih1 ih2 =>
    rw [constructNode, if_neg hguard, treeTriangles.eq_def]
    have hsum := left_add_right_length triangles
    by_cases hl : 0 < (leftTrianglesOf triangles).length <;>
      by_cases hr : 0 < (rightTrianglesOf triangles).length <;>
      simp only [hl, hr, if_true, if_false, reduceIte, List.append_nil]
    · exact ((ih1 hl).append (ih2 hr)).trans (List.filter_append_perm _ triangles)
    · have hrnil : rightTrianglesOf triangles = [] := by
        rw [← List.length_eq_zero]
        omega
      have hperm := List.filter_append_perm
        (splitPred (centerBoundsOf triangles) (splitAxisOf (centerBoundsOf triangles)))
        triangles
      rw [show triangles.filter (fun x =>
          !splitPred (centerBoundsOf triangles) (splitAxisOf (centerBoundsOf triangles)) x) =
          rightTrianglesOf triangles from rfl, hrnil, List.append_nil] at hperm
      exact (ih1 hl).trans hperm
    · have hlnil : leftTrianglesOf triangles = [] := by
        rw [← List.length_eq_zero]
        omega
      have hperm := List.filter_append_perm
        (splitPred (centerBoundsOf triangles) (splitAxisOf (centerBoundsOf triangles)))
        triangles
      rw [show triangles.filter
          (splitPred (centerBoundsOf triangles) (splitAxisOf (centerBoundsOf triangles))) =
          leftTrianglesOf triangles from rfl, hlnil, List.nil_append] at hperm
      exact (ih2 hr).trans hperm
    · have hnil : triangles = [] := by
        rw [← List.length_eq_zero]
        omega
      rw [hnil]

/-- Every vertex of every triangle of the input list lies inside the node box
`constructNode` computes for it. -/
theorem mem_inBounds_constructNode {L : List Triangle} {tri : Triangle} (ht : tri ∈ L) :
    inBounds (Bounds.fromPoints (L.flatMap fun t => [t.v0, t.v1, t.v2]) 0) tri.v0 ∧
    inBounds (Bounds.fromPoints (L.flatMap fun t => [t.v0, t.v1, t.v2]) 0) tri.v1 ∧
    inBounds (Bounds.fromPoints (L.flatMap fun t => [t.v0, t.v1, t.v2]) 0) tri.v2 := by
  refine ⟨inBounds_fromPoints ?_, inBounds_fromPoints ?_, inBounds_fromPoints ?_⟩ <;>
    · rw [List.mem_flatMap]
      exact ⟨tri, ht, by simp⟩

/-- The bounds of the node `constructNode` returns. -/
theorem constructNode_bounds (L : List Triangle) :
    (constructNode L).bounds = Bounds.fromPoints (L.flatMap fun t => [t.v0, t.v1, t.v2]) 0 := by
  rw [constructNode]
  split_ifs <;> rfl

/-- The bounding invariant holds for every built tree. -/
theorem constructNode_covers (L : List Triangle) : nodeCovers (constructNode L) := by
  induction L using constructNode.induct
  next triangles hguard =>
    rw [constructNode, if_pos hguard, nodeCovers.eq_def]
    refine ⟨?_, trivial, trivial⟩
    intro tri htri
    have htm : tri ∈ triangles := by
      rw [treeTriangles.eq_def] at htri
      simpa using htri
    exact mem_inBounds_constructNode htm
  next triangles hguard ih1 ih2 =>
    rw [constructNode, if_neg hguard, nodeCovers.eq_def]
    refine ⟨?_, ?_, ?_⟩
    · intro tri htri
      rw [treeTriangles.eq_def] at htri
      have htm : tri ∈ triangles := by
        rcases List.mem_append.mp htri with h | h
        · by_cases hl : 0 < (leftTrianglesOf triangles).length
          · rw [if_pos hl] at h
            have := (treeTriangles_perm (leftTrianglesOf triangles)).mem_iff.mp h
            exact List.mem_of_mem_filter this
          · rw [if_neg hl] at h
            cases h
        · rcases List.mem_append.mp h with h | h
          · by_cases hr : 0 < (rightTrianglesOf triangles).length
            · rw [if_pos hr] at h
              have := (treeTriangles_perm (rightTrianglesOf triangles)).mem_iff.mp h
              exact List.mem_of_mem_filter this
            · rw [if_neg hr] at h
              cases h
          · cases h
      exact mem_inBounds_constructNode htm
    · by_cases hl : 0 < (leftTrianglesOf triangles).length
      · rw [if_pos hl]
        exact ih1 hl
      · rw [if_neg hl]
        trivial
    · by_cases hr : 0 < (rightTrianglesOf triangles).length
      · rw [if_pos hr]
        exact ih2 hr
      · rw [if_neg hr]
        trivial

/-- One coordinate of Cramer's rule: when the cleared-denominator identity
holds, the divided solution interpolates the vertices. -/
theorem cramer_coord (o d a b c T U V D : ℝ) (hD : D ≠ 0)
    (hid : D * (o - a) + T * d - U * (b - a) - V * (c - a) = 0) :
    o + d * (T / D) = (1 - U / D - V / D) * a + (U / D) * b + (V / D) * c := by
  have key : o + d * (T / D) - ((1 - U / D - V / D) * a + (U / D) * b + (V / D) * c) =
      (D * (o - a) + T * d - U * (b - a) - V * (c - a)) / D := by
    field_simp
    ring
  rw [hid, zero_div] at key
  linarith [key]

/-- A kept Möller–Trumbore hit is a barycentric point of the triangle: the ray
point at the returned parameter is a convex combination of the vertices. -/
theorem hit_barycentric (r : Ray) (tri : Triangle) (t : ℝ)
    (h : r.getTriangleIntersection tri = some t) :
    ∃ u v : ℝ, 0 ≤ u ∧ 0 ≤ v ∧ u + v ≤ 1 ∧ ∀ a : Axis,
      (r.getPoint t).comp a =
        (1 - u - v) * tri.v0.comp a + u * tri.v1.comp a + v * tri.v2.comp a := by
  obtain ⟨⟨ox, oy, oz⟩, ⟨dx, dy, dz⟩⟩ := r
  obtain ⟨⟨ax, ay, az⟩, ⟨bx, by1, bz⟩, ⟨cx, cy, cz⟩⟩ := tri
  unfold Ray.getTriangleIntersection at h
  dsimp only at h
  simp only [Triangle.edgeCross, Triangle.edge1, Triangle.edge2, Vector3.multiply,
    Vector3.subtract, Vector3.cross, Vector3.dot] at h
  split_ifs at h with h1 h2 h3 h4
  have ht := Option.some.inj h
  push_neg at h1 h2 h3
  obtain ⟨h3a, h3b⟩ := h3
  have hD := ne_of_gt h1
  refine ⟨_, _, h2, h3a, h3b, ?_⟩
  intro a
  rw [← ht]
  cases a <;>
    · simp only [Ray.getPoint, Vector3.add, Vector3.multiply, Vector3.comp]
      apply cramer_coord _ _ _ _ _ _ _ _ _ hD
      ring

/-- A convex combination of three values within an interval stays within it. -/
theorem convex_comp_bound {lo hi a0 a1 a2 u v : ℝ}
    (h0 : lo ≤ a0) (h0h : a0 ≤ hi) (h1 : lo ≤ a1) (h1h : a1 ≤ hi)
    (h2 : lo ≤ a2) (h2h : a2 ≤ hi) (hu : 0 ≤ u) (hv : 0 ≤ v) (huv : u + v ≤ 1) :
    lo ≤ (1 - u - v) * a0 + u * a1 + v * a2 ∧
      (1 - u - v) * a0 + u * a1 + v * a2 ≤ hi := by
  constructor <;>
    nlinarith [mul_nonneg (by linarith : (0 : ℝ) ≤ 1 - u - v) (by linarith : 0 ≤ a0 - lo),
      mul_nonneg hu (by linarith : 0 ≤ a1 - lo), mul_nonneg hv (by linarith : 0 ≤ a2 - lo),
      mul_nonneg (by linarith : (0 : ℝ) ≤ 1 - u - v) (by linarith : 0 ≤ hi - a0),
      mul_nonneg hu (by linarith : 0 ≤ hi - a1), mul_nonneg hv (by linarith : 0 ≤ hi - a2)]

/-- The hit point of a kept Möller–Trumbore intersection lies inside every box
containing the triangle's three vertices. -/
theorem hit_point_inBounds {r : Ray} {tri : Triangle} {t : ℝ} {b : Bounds}
    (h : r.getTriangleIntersection tri = some t)
    (h0 : inBounds b tri.v0) (h1 : inBounds b tri.v1) (h2 : inBounds b tri.v2) :
    inBounds b (r.getPoint t) := by
  obtain ⟨u, v, hu, hv, huv, hcomb⟩ := hit_barycentric r tri t h
  intro a
  rw [hcomb a]
  exact convex_comp_bound (h0 a).1 (h0 a).2 (h1 a).1 (h1 a).2 (h2 a).1 (h2 a).2 hu hv huv

/-- One slab step succeeds and keeps the witness parameter inside the running
interval, provided the ray point at that parameter lies within the axis range. -/
theorem slabAxis_of_mem (o d lo hi t : ℝ) (acc : Option ℝ × Option ℝ)
    (hlo : lo ≤ o + d * t) (hhi : o + d * t ≤ hi)
    (he : ∀ e, acc.1 = some e → e ≤ t) (hx : ∀ x, acc.2 = some x → t ≤ x) :
    ∃ acc2, Ray.slabAxis o d lo hi acc = some acc2 ∧
      (∀ e, acc2.1 = some e → e ≤ t) ∧ (∀ x, acc2.2 = some x → t ≤ x) := by
  unfold Ray.slabAxis
  by_cases hd : d = 0
  · rw [if_pos hd]
    subst hd
    rw [if_neg (by push_neg; constructor <;> linarith)]
    exact ⟨acc, rfl, he, hx⟩
  · rw [if_neg hd]
    dsimp only
    have hsorted :
        (if (lo - o) / d > (hi - o) / d then ((hi - o) / d, (lo - o) / d)
          else ((lo - o) / d, (hi - o) / d)) =
        (Min.min ((lo - o) / d) ((hi - o) / d), Max.max ((lo - o) / d) ((hi - o) / d)) := by
      split_ifs with hc
      · rw [min_eq_right hc.le, max_eq_left hc.le]
      · rw [min_eq_left (not_lt.mp hc), max_eq_right (not_lt.mp hc)]
    rw [hsorted]
    have hint : Min.min ((lo - o) / d) ((hi - o) / d) ≤ t ∧
        t ≤ Max.max ((lo - o) / d) ((hi - o) / d) := by
      rcases lt_or_gt_of_ne hd with hneg | hpos
      · constructor
        · exact le_trans (min_le_right _ _) ((div_le_iff_of_neg hneg).mpr (by nlinarith))
        · exact le_trans ((le_div_iff_of_neg hneg).mpr (by nlinarith)) (le_max_left _ _)
      · constructor
        · exact le_trans (min_le_left _ _) ((div_le_iff₀ hpos).mpr (by nlinarith))
        · exact le_trans ((le_div_iff₀ hpos).mpr (by nlinarith)) (le_max_right _ _)
    set m1 := Min.min ((lo - o) / d) ((hi - o) / d)
    set m2 := Max.max ((lo - o) / d) ((hi - o) / d)
    have hentry : (match acc.1 with
        | none => m1
        | some e => Max.max e m1) ≤ t := by
      rcases hacc : acc.1 with _ | e
      · exact hint.1
      · exact max_le (he e hacc) hint.1
    have hexit : t ≤ (match acc.2 with
        | none => m2
        | some x => Min.min x m2) := by
      rcases hacc : acc.2 with _ | x
      · exact hint.2
      · exact le_min (hx x hacc) hint.2
    rw [if_neg (not_lt.mpr (le_trans hentry hexit))]
    refine ⟨_, rfl, ?_, ?_⟩
    · intro e heq
      rw [← Option.some.inj heq]
      exact hentry
    · intro x hxq
      rw [← Option.some.inj hxq]
      exact hexit

/-- Unfolding one step of the axis loop when the axis test succeeds. -/
theorem slabFold_cons (r : Ray) (bo : Bounds) (a : Axis) (rest : List Axis)
    (acc acc2 : Option ℝ × Option ℝ)
    (h : Ray.slabAxis (r.origin.comp a) (r.direction.comp a) (bo.min.comp a)
      (bo.max.comp a) acc = some acc2) :
    Ray.slabFold r bo (a :: rest) acc = Ray.slabFold r bo rest acc2 := by
  rw [Ray.slabFold.eq_def]
  dsimp only
  rw [h]

/-- Slab-test completeness: a ray that meets a box at some parameter passes
`intersectsBounds` for that box. -/
theorem intersectsBounds_of_mem (r : Ray) (b : Bounds) (t : ℝ)
    (h : inBounds b (r.getPoint t)) : r.intersectsBounds b = true := by
  have hpt : ∀ a : Axis,
      b.min.comp a ≤ r.origin.comp a + r.direction.comp a * t ∧
      r.origin.comp a + r.direction.comp a * t ≤ b.max.comp a := by
    intro a
    have h2 := h a
    have : (r.getPoint t).comp a = r.origin.comp a + r.direction.comp a * t := by
      cases a <;> simp [Ray.getPoint, Vector3.add, Vector3.multiply, Vector3.comp]
    rw [this] at h2
    exact h2
  unfold Ray.intersectsBounds
  obtain ⟨acc1, e1, he1, hx1⟩ := slabAxis_of_mem (r.origin.comp Axis.x)
    (r.direction.comp Axis.x) (b.min.comp Axis.x) (b.max.comp Axis.x) t (none, none)
    (hpt Axis.x).1 (hpt Axis.x).2 (by intro e h2; cases h2) (by intro x h2; cases h2)
  obtain ⟨acc2, e2, he2, hx2⟩ := slabAxis_of_mem (r.origin.comp Axis.y)
    (r.direction.comp Axis.y) (b.min.comp Axis.y) (b.max.comp Axis.y) t acc1
    (hpt Axis.y).1 (hpt Axis.y).2 he1 hx1
  obtain ⟨acc3, e3, he3, hx3⟩ := slabAxis_of_mem (r.origin.comp Axis.z)
    (r.direction.comp Axis.z) (b.min.comp Axis.z) (b.max.comp Axis.z) t acc2
    (hpt Axis.z).1 (hpt Axis.z).2 he2 hx2
  rw [slabFold_cons r b Axis.x [Axis.y, Axis.z] (none, none) acc1 e1,
    slabFold_cons r b Axis.y [Axis.z] acc1 acc2 e2,
    slabFold_cons r b Axis.z [] acc2 acc3 e3]
  rfl

/-- Every triangle the filtered traversal returns is a triangle of the tree. -/
theorem mem_traverse_mem_tree (f : Bounds → Bool) :
    ∀ (n : BVHNode) (tri : Triangle), tri ∈ BVH.traverse f n → tri ∈ treeTriangles n
  | .node b l r ts => by
      intro tri h
      rw [BVH.traverse.eq_def] at h
      rw [treeTriangles.eq_def]
      dsimp only at h ⊢
      split_ifs at h with hf
      · rcases List.mem_append.mp h with h | h
        · apply List.mem_append_left
          cases l with
          | none => exact absurd h (by simp)
          | some n2 => exact mem_traverse_mem_tree f n2 tri h
        · apply List.mem_append_right
          rcases List.mem_append.mp h with h | h
          · apply List.mem_append_left
            cases r with
            | none => exact absurd h (by simp)
            | some n2 => exact mem_traverse_mem_tree f n2 tri h
          · exact List.mem_append_right _ h
      · cases h

/-- Traversal completeness for raycasts: under the bounding invariant, every
tree triangle the ray actually hits is among the collected candidates. -/
theorem hit_mem_traverse (ray : Ray) :
    ∀ (n : BVHNode), nodeCovers n → ∀ (tri : Triangle), tri ∈ treeTriangles n →
      ∀ t : ℝ, ray.getTriangleIntersection tri = some t →
      tri ∈ BVH.traverse (fun bb => ray.intersectsBounds bb) n
  | .node b l r ts => by
      intro hcov tri htri t hhit
      rw [nodeCovers.eq_def] at hcov
      dsimp only at hcov
      obtain ⟨hbound, hcl, hcr⟩ := hcov
      have hin := hbound tri htri
      have hpt := hit_point_inBounds hhit hin.1 hin.2.1 hin.2.2
      have hb : ray.intersectsBounds b = true := intersectsBounds_of_mem ray b t hpt
      rw [BVH.traverse.eq_def]
      dsimp only
      rw [if_pos hb]
      rw [treeTriangles.eq_def] at htri
      dsimp only at htri
      rcases List.mem_append.mp htri with h | h
      · apply List.mem_append_left
        cases l with
        | none => exact absurd h (by simp)
        | some n2 => exact hit_mem_traverse ray n2 hcl tri h t hhit
      · apply List.mem_append_right
        rcases List.mem_append.mp h with h | h
        · apply List.mem_append_left
          cases r with
          | none => exact absurd h (by simp)
          | some n2 => exact hit_mem_traverse ray n2 hcr tri h t hhit
        · exact List.mem_append_right _ h

/-- The scan state after one triangle (the body of the `raycastLoop` match). -/
def raycastStep (r : Ray) (tri : Triangle) (acc : Option (ℝ × Vector3)) :
    Option (ℝ × Vector3) :=
  match r.getTriangleIntersection tri, acc with
  | some t, none => if t ≠ 0 then some (t, tri.normal) else none
  | some t, some (minT, minNormal) =>
      if t ≠ 0 ∧ t < minT then some (t, tri.normal) else some (minT, minNormal)
  | none, a => a

theorem raycastLoop_cons (r : Ray) (tri : Triangle) (rest : List Triangle)
    (acc : Option (ℝ × Vector3)) :
    raycastLoop r (tri :: rest) acc = raycastLoop r rest (raycastStep r tri acc) := rfl

theorem raycastStep_miss (r : Ray) (tri : Triangle) (acc : Option (ℝ × Vector3))
    (h : r.getTriangleIntersection tri = none) : raycastStep r tri acc = acc := by
  unfold raycastStep
  rw [h]

theorem raycastStep_hit_none (r : Ray) (tri : Triangle) (t0 : ℝ)
    (h : r.getTriangleIntersection tri = some t0) :
    raycastStep r tri none = if t0 ≠ 0 then some (t0, tri.normal) else none := by
  unfold raycastStep
  rw [h]

theorem raycastStep_hit_some (r : Ray) (tri : Triangle) (t0 mt : ℝ) (mn : Vector3)
    (h : r.getTriangleIntersection tri = some t0) :
    raycastStep r tri (some (mt, mn)) =
      if t0 ≠ 0 ∧ t0 < mt then some (t0, tri.normal) else some (mt, mn) := by
  unfold raycastStep
  rw [h]

/-- The scan returns `none` exactly when it started empty and no triangle of
the list has a nonzero hit parameter (a hit at exactly `0` is dropped). -/
theorem raycastLoop_none_iff (r : Ray) (ts : List Triangle) :
    ∀ acc, (raycastLoop r ts acc = none ↔
      acc = none ∧ ∀ tri ∈ ts, ∀ t : ℝ, r.getTriangleIntersection tri = some t → t = 0) := by
  induction ts with
  | nil =>
      intro acc
      constructor
      · intro h
        exact ⟨h, by intro tri htri; cases htri⟩
      · intro h
        exact h.1
  | cons tri rest ih =>
      intro acc
      rw [raycastLoop_cons, ih]
      have hcons : ∀ (P : Prop), (∀ tri2 ∈ tri :: rest, ∀ t : ℝ,
          r.getTriangleIntersection tri2 = some t → t = 0) ↔
          ((∀ t : ℝ, r.getTriangleIntersection tri = some t → t = 0) ∧
            ∀ tri2 ∈ rest, ∀ t : ℝ, r.getTriangleIntersection tri2 = some t → t = 0) := by
        intro _
        constructor
        · intro h
          exact ⟨fun t ht => h tri (List.mem_cons_self tri rest) t ht,
            fun tri2 htri2 t ht => h tri2 (List.mem_cons_of_mem tri htri2) t ht⟩
        · rintro ⟨h1, h2⟩ tri2 htri2 t ht
          rcases List.mem_cons.mp htri2 with rfl | htri2
          · exact h1 t ht
          · exact h2 tri2 htri2 t ht
      rw [hcons True]
      rcases hhit : r.getTriangleIntersection tri with _ | t0
      · rw [raycastStep_miss r tri acc hhit]
        constructor
        · rintro ⟨h1, h2⟩
          refine ⟨h1, ?_, h2⟩
          intro t ht
          cases ht
        · rintro ⟨h1, _, h2⟩
          exact ⟨h1, h2⟩
      · rcases hacc : acc with _ | ⟨mt, mn⟩
        · rw [raycastStep_hit_none r tri t0 hhit]
          by_cases ht0 : t0 ≠ 0
          · rw [if_pos ht0]
            constructor
            · rintro ⟨h1, _⟩
              cases h1
            · rintro ⟨_, h1, _⟩
              exact absurd (h1 t0 rfl) ht0
          · rw [if_neg ht0]
            push_neg at ht0
            constructor
            · rintro ⟨_, h2⟩
              refine ⟨rfl, ?_, h2⟩
              intro t ht
              rw [← Option.some.inj ht]
              exact ht0
            · rintro ⟨_, _, h2⟩
              exact ⟨rfl, h2⟩
        · rw [raycastStep_hit_some r tri t0 mt mn hhit]
          constructor
          · rintro ⟨h1, _⟩
            split_ifs at h1
          · rintro ⟨h1, _⟩
            cases h1

/-- What a successful scan returns: a kept hit of the list (or the incoming
accumulator), minimal among all kept hits and no larger than the incoming
accumulator value. -/
theorem raycastLoop_some_spec (r : Ray) (ts : List Triangle) :
    ∀ acc m n, raycastLoop r ts acc = some (m, n) →
      ((∃ tri ∈ ts, r.getTriangleIntersection tri = some m ∧ m ≠ 0 ∧ tri.normal = n) ∨
        acc = some (m, n)) ∧
      (∀ tri ∈ ts, ∀ t : ℝ, r.getTriangleIntersection tri = some t → t ≠ 0 → m ≤ t) ∧
      (∀ a b, acc = some (a, b) → m ≤ a) := by
  induction ts with
  | nil =>
      intro acc m n h
      refine ⟨Or.inr h, ?_, ?_⟩
      · intro tri htri
        cases htri
      · intro a b hab
        rw [hab] at h
        rw [((Prod.mk.injEq _ _ _ _).mp (Option.some.inj h)).1]
  | cons tri rest ih =>
      intro acc m n h
      rw [raycastLoop_cons] at h
      obtain ⟨hfrom, hmin, hacc⟩ := ih (raycastStep r tri acc) m n h
      have hminc : ∀ (hm0 : ∀ t : ℝ, r.getTriangleIntersection tri = some t → t ≠ 0 → m ≤ t),
          ∀ tri2 ∈ tri :: rest, ∀ t : ℝ,
            r.getTriangleIntersection tri2 = some t → t ≠ 0 → m ≤ t := by
        intro hm0 tri2 htri2 t ht htne
        rcases List.mem_cons.mp htri2 with rfl | htri2
        · exact hm0 t ht htne
        · exact hmin tri2 htri2 t ht htne
      have hlift : (∃ tri2 ∈ rest, r.getTriangleIntersection tri2 = some m ∧ m ≠ 0 ∧
          tri2.normal = n) → ∃ tri2 ∈ tri :: rest,
          r.getTriangleIntersection tri2 = some m ∧ m ≠ 0 ∧ tri2.normal = n := by
        rintro ⟨tri2, htri2, h2⟩
        exact ⟨tri2, List.mem_cons_of_mem tri htri2, h2⟩
      rcases hhit : r.getTriangleIntersection tri with _ | t0
      · rw [raycastStep_miss r tri acc hhit] at hfrom hacc
        refine ⟨?_, ?_, hacc⟩
        · rcases hfrom with h2 | h2
          · exact Or.inl (hlift h2)
          · exact Or.inr h2
        · refine hminc ?_
          intro t ht
          rw [hhit] at ht
          cases ht
      · rcases hacc2 : acc with _ | ⟨mt, mn⟩
        · rw [hacc2, raycastStep_hit_none r tri t0 hhit] at hfrom hacc
          by_cases ht0 : t0 ≠ 0
          · rw [if_pos ht0] at hfrom hacc
            have hm : m ≤ t0 := hacc t0 tri.normal rfl
            refine ⟨?_, ?_, by intro a b hab; cases hab⟩
            · rcases hfrom with h2 | h2
              · exact Or.inl (hlift h2)
              · obtain ⟨he1, he2⟩ := (Prod.mk.injEq _ _ _ _).mp (Option.some.inj h2)
                exact Or.inl ⟨tri, List.mem_cons_self tri rest,
                  by rw [hhit, he1], by rw [← he1]; exact ht0, he2⟩
            · refine hminc ?_
              intro t ht _
              rw [hhit] at ht
              rw [← Option.some.inj ht]
              exact hm
          · rw [if_neg ht0] at hfrom hacc
            push_neg at ht0
            refine ⟨?_, ?_, by intro a b hab; cases hab⟩
            · rcases hfrom with h2 | h2
              · exact Or.inl (hlift h2)
              · cases h2
            · refine hminc ?_
              intro t ht htne
              rw [hhit] at ht
              exact absurd (ht0 ▸ Option.some.inj ht).symm htne
        · rw [hacc2, raycastStep_hit_some r tri t0 mt mn hhit] at hfrom hacc
          by_cases hcond : t0 ≠ 0 ∧ t0 < mt
          · rw [if_pos hcond] at hfrom hacc
            have hm : m ≤ t0 := hacc t0 tri.normal rfl
            refine ⟨?_, ?_, ?_⟩
            · rcases hfrom with h2 | h2
              · exact Or.inl (hlift h2)
              · obtain ⟨he1, he2⟩ := (Prod.mk.injEq _ _ _ _).mp (Option.some.inj h2)
                exact Or.inl ⟨tri, List.mem_cons_self tri rest,
                  by rw [hhit, he1], by rw [← he1]; exact hcond.1, he2⟩
            · refine hminc ?_
              intro t ht _
              rw [hhit] at ht
              rw [← Option.some.inj ht]
              exact hm
            · intro a b hab
              obtain ⟨he1, _⟩ := (Prod.mk.injEq _ _ _ _).mp (Option.some.inj hab)
              rw [← he1]
              exact le_trans hm (le_of_lt hcond.2)
          · rw [if_neg hcond] at hfrom hacc
            have hmmt : m ≤ mt := hacc mt mn rfl
            refine ⟨?_, ?_, ?_⟩
            · rcases hfrom with h2 | h2
              · exact Or.inl (hlift h2)
              · exact Or.inr h2
            · refine hminc ?_
              intro t ht htne
              rw [hhit] at ht
              have htt0 : t0 = t := Option.some.inj ht
              rcases not_and_or.mp hcond with hc | hc
              · exact absurd (htt0.symm.trans (not_not.mp hc)) htne
              · push_neg at hc
                rw [← htt0]
                exact le_trans hmmt hc
            · intro a b hab
              obtain ⟨he1, _⟩ := (Prod.mk.injEq _ _ _ _).mp (Option.some.inj hab)
              rw [← he1]
              exact hmmt

/-- C1 (amended).  `BVH.raycast` agrees with a brute-force scan restricted to
strictly positive hit parameters: it returns no hit exactly when every triangle
hit has parameter `0` (the `if (t && ...)` guard drops `t = 0` hits), and a
returned hit carries the minimum nonzero hit parameter over all triangles, the
ray point at that parameter, and the normal of a triangle attaining it. -/
theorem bvh_raycast_amended (models : List GameModel) (ray : Ray) :
    let L := models.flatMap GameModel.triangles
    let res := BVH.raycast (BVH.init models) ray
    (res = none ↔ ∀ tri ∈ L, ∀ t : ℝ, ray.getTriangleIntersection tri = some t → t = 0) ∧
    (∀ info, res = some info →
      (∃ tri ∈ L, ray.getTriangleIntersection tri = some info.t ∧
        info.t ≠ 0 ∧ tri.normal = info.normal) ∧
      (∀ tri ∈ L, ∀ t : ℝ, ray.getTriangleIntersection tri = some t → t ≠ 0 → info.t ≤ t) ∧
      info.position = ray.getPoint info.t) := by
  intro L res
  have hperm : List.Perm (treeTriangles (BVH.init models)) L := treeTriangles_perm L
  have hcov : nodeCovers (BVH.init models) := constructNode_covers L
  have hsub : ∀ tri ∈ BVH.getCandidateTriangles
      (fun b => ray.intersectsBounds b) (BVH.init models), tri ∈ L :=
    fun tri h => hperm.mem_iff.mp
      (mem_traverse_mem_tree (fun b => ray.intersectsBounds b) (BVH.init models) tri h)
  have hcomp : ∀ tri ∈ L, ∀ t : ℝ, ray.getTriangleIntersection tri = some t →
      tri ∈ BVH.getCandidateTriangles (fun b => ray.intersectsBounds b) (BVH.init models) :=
    fun tri h t ht =>
      hit_mem_traverse ray (BVH.init models) hcov tri (hperm.mem_iff.mpr h) t ht
  rcases hloop : raycastLoop ray
      (BVH.getCandidateTriangles (fun b => ray.intersectsBounds b) (BVH.init models)) none
    with _ | ⟨m, n⟩
  · have hres : res = none := by
      show BVH.raycast (BVH.init models) ray = none
      rw [BVH.raycast, hloop]
    have hnone := (raycastLoop_none_iff ray
      (BVH.getCandidateTriangles (fun b => ray.intersectsBounds b) (BVH.init models))
      none).mp hloop
    constructor
    · rw [hres]
      refine ⟨fun _ tri htri t ht => hnone.2 tri (hcomp tri htri t ht) t ht, fun _ => rfl⟩
    · intro info hinfo
      rw [hres] at hinfo
      cases hinfo
  · obtain ⟨hfrom, hmin, _⟩ := raycastLoop_some_spec ray
      (BVH.getCandidateTriangles (fun b => ray.intersectsBounds b) (BVH.init models))
      none m n hloop
    have hres : res = some ⟨m, ray.getPoint m, n⟩ := by
      show BVH.raycast (BVH.init models) ray = some ⟨m, ray.getPoint m, n⟩
      rw [BVH.raycast, hloop]
    rcases hfrom with ⟨tri, htri, hhm, hm0, hnn⟩ | hcontra
    · constructor
      · rw [hres]
        constructor
        · intro hinfo
          cases hinfo
        · intro hall
          exact absurd (hall tri (hsub tri htri) m hhm) hm0
      · intro info hinfo
        rw [hres] at hinfo
        have hinfo2 := (Option.some.inj hinfo).symm
        rw [hinfo2]
        refine ⟨⟨tri, hsub tri htri, hhm, hm0, hnn⟩, ?_, rfl⟩
        intro tri2 htri2 t ht htne
        exact hmin tri2 (hcomp tri2 htri2 t ht) t ht htne
    · cases hcontra

/-- The brute-force reference scan, written from the spec's words: evaluate
`Ray.getTriangleIntersection` on every triangle, keep the minimum non-negative
hit parameter, and return that `t`, the point `ray.getPoint(t)` and the struck
triangle's normal, or no hit when no triangle is struck. -/
def bruteForceRaycast (triangles : List Triangle) (ray : Ray) : Option RaycastInfo :=
  match triangles.foldl (fun acc tri =>
    match ray.getTriangleIntersection tri, acc with
    | some t, none => some (t, tri.normal)
    | some t, some (minT, minNormal) =>
        if t < minT then some (t, tri.normal) else some (minT, minNormal)
    | none, a => a) none with
  | none => none
  | some (minT, minNormal) => some ⟨minT, ray.getPoint minT, minNormal⟩

/-- The ray of the degenerate-hit counterexample: starts on the floor plane. -/
def cexRay : Ray := ⟨⟨0, 0, 0⟩, ⟨0, -1, 0⟩⟩

theorem cexRay_hit : cexRay.getTriangleIntersection floorTri = some 0 := by
  unfold Ray.getTriangleIntersection
  simp only [cexRay, floorTri, Triangle.edgeCross, Triangle.edge1, Triangle.edge2,
    Vector3.multiply, Vector3.dot, Vector3.cross, Vector3.subtract]
  norm_num

theorem cexRay_slab : cexRay.intersectsBounds ⟨⟨-10, 0, -10⟩, ⟨10, 0, 10⟩⟩ = true := by
  simp only [Ray.intersectsBounds, Ray.slabFold, Ray.slabAxis, cexRay, Vector3.comp]
  norm_num

theorem cex_raycast_none : BVH.raycast (BVH.init [⟨[floorTri]⟩]) cexRay = none := by
  have hinit : BVH.init [⟨[floorTri]⟩] = constructNode [floorTri] := rfl
  rw [hinit, floorLeaf, BVH.raycast, BVH.getCandidateTriangles, BVH.traverse]
  rw [cexRay_slab]
  simp only [if_true, List.nil_append]
  rw [raycastLoop_cons, raycastStep_hit_none cexRay floorTri 0 cexRay_hit]
  rw [if_neg (by norm_num)]
  rfl

theorem cex_brute_some :
    bruteForceRaycast [floorTri] cexRay = some ⟨0, ⟨0, 0, 0⟩, ⟨0, 1, 0⟩⟩ := by
  unfold bruteForceRaycast
  rw [List.foldl_cons, List.foldl_nil, cexRay_hit]
  rw [floorTri_normal]
  dsimp only
  rw [show cexRay.getPoint 0 = ⟨0, 0, 0⟩ from by
    unfold Ray.getPoint
    simp only [cexRay, Vector3.add, Vector3.multiply]
    norm_num]

/-- First tie triangle: plane `z = 0`, unit normal `(0, 0, 1)`. -/
def tieA : Triangle := ⟨⟨-1, -1, 0⟩, ⟨1, -1, 0⟩, ⟨0, 2, 0⟩⟩

/-- Second tie triangle: tilted, unit normal `(0, -3/5, 4/5)`, also through the
origin at ray parameter `5`. -/
def tieB : Triangle := ⟨⟨-1/4, -1, -3/4⟩, ⟨3/4, -1, -3/4⟩, ⟨-1/4, 3, 9/4⟩⟩

/-- The tie ray: both triangles are struck at `t = 5`, at the origin. -/
def tieRay : Ray := ⟨⟨0, 0, 5⟩, ⟨0, 0, -1⟩⟩

theorem tieA_normal : tieA.normal = ⟨0, 0, 1⟩ := by
  rw [Triangle.normal]
  rw [show tieA.edgeCross = ⟨0, 0, 6⟩ from by
    simp only [tieA, Triangle.edgeCross, Triangle.edge1, Triangle.edge2, Vector3.cross,
      Vector3.subtract]
    norm_num]
  rw [unit_eval ⟨0, 0, 6⟩ 6 (by norm_num) (by norm_num)]
  simp only [Vector3.divide]
  norm_num

theorem tieB_normal : tieB.normal = ⟨0, -3/5, 4/5⟩ := by
  rw [Triangle.normal]
  rw [show tieB.edgeCross = ⟨0, -3, 4⟩ from by
    simp only [tieB, Triangle.edgeCross, Triangle.edge1, Triangle.edge2, Vector3.cross,
      Vector3.subtract]
    norm_num]
  rw [unit_eval ⟨0, -3, 4⟩ 5 (by norm_num) (by norm_num)]
  simp only [Vector3.divide]
  norm_num

theorem tieA_hit : tieRay.getTriangleIntersection tieA = some 5 := by
  unfold Ray.getTriangleIntersection
  simp only [tieRay, tieA, Triangle.edgeCross, Triangle.edge1, Triangle.edge2,
    Vector3.multiply, Vector3.dot, Vector3.cross, Vector3.subtract]
  norm_num

theorem tieB_hit : tieRay.getTriangleIntersection tieB = some 5 := by
  unfold Ray.getTriangleIntersection
  simp only [tieRay, tieB, Triangle.edgeCross, Triangle.edge1, Triangle.edge2,
    Vector3.multiply, Vector3.dot, Vector3.cross, Vector3.subtract]
  norm_num

theorem tie_dims : (centerBoundsOf [tieB, tieA]).dimensions = ⟨1/12, 1/3, 1/4⟩ := by
  simp only [centerBoundsOf, tieA, tieB, Triangle.centroid, Vector3.add, Vector3.divide,
    Bounds.fromPoints, Bounds.dimensions, Bounds.listMin, Bounds.listMax, Bounds.optMin,
    Bounds.optMax, List.map, List.foldl, Option.getD, Vector3.subtract]
  norm_num

theorem tie_center : (centerBoundsOf [tieB, tieA]).center = ⟨1/24, 1/6, 1/8⟩ := by
  simp only [centerBoundsOf, tieA, tieB, Triangle.centroid, Vector3.add, Vector3.divide,
    Bounds.fromPoints, Bounds.center, Bounds.listMin, Bounds.listMax, Bounds.optMin,
    Bounds.optMax, List.map, List.foldl, Option.getD]
  norm_num

theorem tie_axis : splitAxisOf (centerBoundsOf [tieB, tieA]) = Axis.y := by
  unfold splitAxisOf
  rw [tie_dims]
  rw [if_pos (by norm_num [Vector3.comp] : ((⟨1/12, 1/3, 1/4⟩ : Vector3)).y >
    ((⟨1/12, 1/3, 1/4⟩ : Vector3)).comp Axis.x)]
  rw [if_neg (by norm_num [Vector3.comp] : ¬(((⟨1/12, 1/3, 1/4⟩ : Vector3)).z >
    ((⟨1/12, 1/3, 1/4⟩ : Vector3)).comp Axis.y))]

theorem tieB_splitPred :
    splitPred (centerBoundsOf [tieB, tieA]) Axis.y tieB = false := by
  unfold splitPred
  rw [tie_center]
  exact decide_eq_false (by
    simp only [tieB, Triangle.centroid, Vector3.add, Vector3.divide, Vector3.comp]
    norm_num)

theorem tieA_splitPred :
    splitPred (centerBoundsOf [tieB, tieA]) Axis.y tieA = true := by
  unfold splitPred
  rw [tie_center]
  exact decide_eq_true (by
    simp only [tieA, Triangle.centroid, Vector3.add, Vector3.divide, Vector3.comp]
    norm_num)

theorem tie_left : leftTrianglesOf [tieB, tieA] = [tieA] := by
  unfold leftTrianglesOf
  rw [tie_axis]
  rw [List.filter_cons, List.filter_cons, List.filter_nil, tieB_splitPred, tieA_splitPred]
  rfl

theorem tie_right : rightTrianglesOf [tieB, tieA] = [tieB] := by
  unfold rightTrianglesOf
  rw [tie_axis]
  rw [List.filter_cons, List.filter_cons, List.filter_nil, tieB_splitPred, tieA_splitPred]
  rfl

theorem tieA_leaf : constructNode [tieA] =
    BVHNode.node ⟨⟨-1, -1, 0⟩, ⟨1, 2, 0⟩⟩ none none (some [tieA]) := by
  rw [constructNode]
  rw [if_pos (Or.inl rfl :
    [tieA].length = 1 ∨ (centerBoundsOf [tieA]).dimensions.magnitude = 0)]
  rw [show Bounds.fromPoints ([tieA].flatMap fun t => [t.v0, t.v1, t.v2]) 0 =
      (⟨⟨-1, -1, 0⟩, ⟨1, 2, 0⟩⟩ : Bounds) from by
    simp only [tieA, List.flatMap_cons, List.flatMap_nil, List.append_nil,
      Bounds.fromPoints, Bounds.listMin, Bounds.listMax, Bounds.optMin, Bounds.optMax,
      List.map, List.foldl, Option.getD]
    norm_num]

theorem tieB_leaf : constructNode [tieB] =
    BVHNode.node ⟨⟨-1/4, -1, -3/4⟩, ⟨3/4, 3, 9/4⟩⟩ none none (some [tieB]) := by
  rw [constructNode]
  rw [if_pos (Or.inl rfl :
    [tieB].length = 1 ∨ (centerBoundsOf [tieB]).dimensions.magnitude = 0)]
  rw [show Bounds.fromPoints ([tieB].flatMap fun t => [t.v0, t.v1, t.v2]) 0 =
      (⟨⟨-1/4, -1, -3/4⟩, ⟨3/4, 3, 9/4⟩⟩ : Bounds) from by
    simp only [tieB, List.flatMap_cons, List.flatMap_nil, List.append_nil,
      Bounds.fromPoints, Bounds.listMin, Bounds.listMax, Bounds.optMin, Bounds.optMax,
      List.map, List.foldl, Option.getD]
    norm_num]

theorem tie_tree : constructNode [tieB, tieA] =
    BVHNode.node ⟨⟨-1, -1, -3/4⟩, ⟨1, 3, 9/4⟩⟩
      (some (BVHNode.node ⟨⟨-1, -1, 0⟩, ⟨1, 2, 0⟩⟩ none none (some [tieA])))
      (some (BVHNode.node ⟨⟨-1/4, -1, -3/4⟩, ⟨3/4, 3, 9/4⟩⟩ none none (some [tieB])))
      none := by
  rw [constructNode]
  rw [if_neg (by
    rintro (h | h)
    · simp at h
    · rw [tie_dims] at h
      obtain ⟨h1, _, _⟩ := (magnitude_eq_zero_iff _).mp h
      norm_num at h1)]
  rw [tie_left, tie_right]
  rw [if_pos (by norm_num : 0 < ([tieA] : List Triangle).length)]
  rw [if_pos (by norm_num : 0 < ([tieB] : List Triangle).length)]
  rw [tieA_leaf, tieB_leaf]
  rw [show Bounds.fromPoints ([tieB, tieA].flatMap fun t => [t.v0, t.v1, t.v2]) 0 =
      (⟨⟨-1, -1, -3/4⟩, ⟨1, 3, 9/4⟩⟩ : Bounds) from by
    simp only [tieA, tieB, List.flatMap_cons, List.flatMap_nil, List.append_nil,
      List.cons_append, List.nil_append, Bounds.fromPoints, Bounds.listMin,
      Bounds.listMax, Bounds.optMin, Bounds.optMax, List.map, List.foldl, Option.getD]
    norm_num]

theorem tie_slab_root :
    tieRay.intersectsBounds ⟨⟨-1, -1, -3/4⟩, ⟨1, 3, 9/4⟩⟩ = true := by
  apply intersectsBounds_of_mem tieRay _ 5
  intro a
  cases a <;>
    simp only [inBounds, tieRay, Ray.getPoint, Vector3.add, Vector3.multiply,
      Vector3.comp] <;> norm_num

theorem tie_slab_A :
    tieRay.intersectsBounds ⟨⟨-1, -1, 0⟩, ⟨1, 2, 0⟩⟩ = true := by
  apply intersectsBounds_of_mem tieRay _ 5
  intro a
  cases a <;>
    simp only [inBounds, tieRay, Ray.getPoint, Vector3.add, Vector3.multiply,
      Vector3.comp] <;> norm_num

theorem tie_slab_B :
    tieRay.intersectsBounds ⟨⟨-1/4, -1, -3/4⟩, ⟨3/4, 3, 9/4⟩⟩ = true := by
  apply intersectsBounds_of_mem tieRay _ 5
  intro a
  cases a <;>
    simp only [inBounds, tieRay, Ray.getPoint, Vector3.add, Vector3.multiply,
      Vector3.comp] <;> norm_num

theorem traverse_leaf (f : Bounds → Bool) (b : Bounds) (ts : List Triangle)
    (h : f b = true) :
    BVH.traverse f (BVHNode.node b none none (some ts)) = ts := by
  rw [BVH.traverse.eq_def]
  dsimp only
  rw [h]
  simp

theorem tie_candidates :
    BVH.traverse (fun b => tieRay.intersectsBounds b)
      (BVHNode.node ⟨⟨-1, -1, -3/4⟩, ⟨1, 3, 9/4⟩⟩
        (some (BVHNode.node ⟨⟨-1, -1, 0⟩, ⟨1, 2, 0⟩⟩ none none (some [tieA])))
        (some (BVHNode.node ⟨⟨-1/4, -1, -3/4⟩, ⟨3/4, 3, 9/4⟩⟩ none none (some [tieB])))
        none) = [tieA, tieB] := by
  rw [BVH.traverse.eq_def]
  dsimp only
  rw [tie_slab_root]
  simp only [if_true]
  rw [traverse_leaf _ _ _ tie_slab_A, traverse_leaf _ _ _ tie_slab_B]
  rfl

theorem tie_getPoint : tieRay.getPoint 5 = ⟨0, 0, 0⟩ := by
  unfold Ray.getPoint
  simp only [tieRay, Vector3.add, Vector3.multiply]
  norm_num

theorem tie_raycast :
    BVH.raycast (BVH.init [⟨[tieB, tieA]⟩]) tieRay = some ⟨5, ⟨0, 0, 0⟩, ⟨0, 0, 1⟩⟩ := by
  have hinit : BVH.init [⟨[tieB, tieA]⟩] = constructNode [tieB, tieA] := rfl
  rw [hinit, tie_tree, BVH.raycast, BVH.getCandidateTriangles, tie_candidates]
  rw [raycastLoop_cons, raycastStep_hit_none tieRay tieA 5 tieA_hit]
  rw [if_pos (by norm_num : (5 : ℝ) ≠ 0)]
  rw [raycastLoop_cons, raycastStep_hit_some tieRay tieB 5 5 tieA.normal tieB_hit]
  rw [if_neg (by intro h; exact absurd h.2 (lt_irrefl 5))]
  rw [show raycastLoop tieRay [] (some (5, tieA.normal)) = some (5, tieA.normal) from rfl]
  dsimp only
  rw [tie_getPoint, tieA_normal]

theorem tie_brute :
    bruteForceRaycast [tieB, tieA] tieRay = some ⟨5, ⟨0, 0, 0⟩, ⟨0, -3/5, 4/5⟩⟩ := by
  unfold bruteForceRaycast
  rw [List.foldl_cons, tieB_hit]
  dsimp only
  rw [tieB_normal, List.foldl_cons, List.foldl_nil, tieA_hit]
  dsimp only
  rw [if_neg (lt_irrefl (5 : ℝ))]
  dsimp only
  rw [tie_getPoint]

/-- Counterexample to C1 as stated: (1) a ray hitting the floor triangle at
exactly `t = 0` is dropped by the scan guard `if (t && t < minT)` (`0` is
falsy), so `BVH.raycast` reports no hit while the brute-force minimum
non-negative scan reports the `t = 0` hit; (2) two triangles struck at the
same parameter `t = 5` are scanned in BVH traversal order, which differs from
the input list order, so the returned normal differs from the brute-force
scan's pick. -/
theorem bvh_raycast_cex :
    (BVH.raycast (BVH.init [⟨[floorTri]⟩]) cexRay = none ∧
      bruteForceRaycast [floorTri] cexRay = some ⟨0, ⟨0, 0, 0⟩, ⟨0, 1, 0⟩⟩) ∧
    (BVH.raycast (BVH.init [⟨[tieB, tieA]⟩]) tieRay = some ⟨5, ⟨0, 0, 0⟩, ⟨0, 0, 1⟩⟩ ∧
      bruteForceRaycast [tieB, tieA] tieRay = some ⟨5, ⟨0, 0, 0⟩, ⟨0, -3/5, 4/5⟩⟩ ∧
      (⟨0, 0, 1⟩ : Vector3) ≠ ⟨0, -3/5, 4/5⟩) := by
  refine ⟨⟨cex_raycast_none, cex_brute_some⟩, tie_raycast, tie_brute, ?_⟩
  intro h
  have := congrArg Vector3.z h
  norm_num at this

end FG
